import Mathlib

/-!
# Verification of the rell deploy orchestrator

A shallow embedding of the `deploy` command (`node.go`, package `main`): the
docker client, filesystem and proxy interactions are modelled by an explicit
`World` state carrying the container list, the file store, a fault-injection
oracle for every external operation, the memoized client handle, a millisecond
clock and a chronological trace of the external effects performed.  Each Go
function becomes a Lean function `World → Res α × World` translated
line-by-line from the source.
-/

set_option autoImplicit false

namespace Rell

/-- Go `error` values occurring in the deploy command. -/
inductive Err where
  | notFound
  | connectFail
  | inj (n : Nat)
  | atoiErr
  | fileMissing
  | multi (es : List Err)
  | wrap (e : Err)
deriving Repr

/-- The Go comparison `err == dockerclient.ErrNotFound`. -/
def Err.isNotFound : Err → Bool
  | .notFound => true
  | _ => false

/-- Result of a Go call: a value, a Go `error`, or a runtime panic. -/
inductive Res (α : Type) where
  | ok : α → Res α
  | err : Err → Res α
  | panic : Res α
deriving Repr

/-- Runtime-observed container state, as reported by the docker client. -/
structure Container where
  id : String
  names : List String
  image : String
  running : Bool
  ip : String
deriving Repr, DecidableEq

/-- Contents of a file in the model: raw text, or a rendered template
recorded with the exact data the source passes to `Execute`, or garbled
partial output left by a failed render/write. -/
inductive FileData where
  | empty
  | text (s : String)
  | tagConf (backendName serverName ipAddress : String) (port : Nat)
      (certFile keyFile : String)
  | prodConf (serverSuffix backendName certFile keyFile : String)
  | garbled
deriving Repr, DecidableEq

/-- External effects, recorded chronologically. -/
inductive Event where
  | connect
  | inspect (name : String)
  | create (name image user : String) (env : List String)
  | start (id : String)
  | stop (id : String) (timeoutSecs : Nat)
  | remove (key : String)
  | list
  | fsCreate (path : String)
  | render (path : String)
  | fsWrite (path s : String)
  | fsClose (path : String)
  | fsRemove (path : String)
  | fsRead (path : String)
  | mkdirAll (path : String)
  | signalHup
deriving Repr, DecidableEq

/-- Fault-injection oracle: for each external operation, whether (and with
which error) the environment makes it fail, plus the data the environment
supplies (assigned container addresses, HTTP probe outcomes and durations). -/
structure Faults where
  connectOk : Bool
  inspectErr : String → Option Err
  createErr : String → Option Err
  startErr : String → Option Err
  stopErr : String → Option Err
  removeErr : String → Option Err
  listErr : Option Err
  assignedIp : String → String
  fsCreateErr : String → Option Err
  renderErr : String → Option Err
  fsWriteErr : String → Option Err
  fsCloseErr : String → Option Err
  fsReadErr : String → Option Err
  signalErr : Option Err
  httpOk : Nat → Bool
  httpErr : Nat → Err
  httpDur : Nat → Nat

/-- The whole mutable state: docker daemon, filesystem, fault oracle, the
`sync.Once`-memoized client (`none` = not yet constructed, `some none` =
constructed ok, `some (some e)` = construction failed with `e`), the clock in
milliseconds, the number of HTTP probes issued so far, and the effect trace. -/
structure World where
  docker : List Container
  fs : List (String × FileData)
  faults : Faults
  clientMemo : Option (Option Err)
  now : Nat
  httpCalls : Nat
  trace : List Event

/-- Static configuration of the `Deploy` struct. -/
structure Deploy where
  dockerURL : String
  serverSuffix : String
  certFile : String
  keyFile : String

/-! ## Constants from the source -/

def infoCheckMaxWait : Nat := 60000
def infoCheckSleep : Nat := 25
def lastDeployTagFile : String := "/var/lib/rell/production-tag"
def nginxConfDir : String := "/etc/nginx/server"
def nginxPidFile : String := "/run/nginx.pid"
def prodNginxConfFile : String := "rell-prod.conf"
def redisContainerLink : String := "redis:redis"
def redisContainerName : String := "redis"
def redisDataBind : String := "/var/lib/redis:/data"
def redisImage : String := "daaku/redis"
def rellContainerNamePrefix : String := "rell-"
def rellEnvFile : String := "/etc/conf.d/rell"
def rellImage : String := "daaku/rell"
def rellPort : Nat := 43600
def rellUser : String := "15151"
def stopTimeoutSecs : Nat := 30

/-! ## String helpers (over `List Char`, mirroring Go's byte-wise ops) -/

/-- `strings.HasPrefix`. -/
def strHasPrefix (pre s : String) : Bool := pre.data.isPrefixOf s.data

/-- Go string slicing `s[n:]`. -/
def strDropN (s : String) (n : Nat) : String := ⟨s.data.drop n⟩

/-- `unicode.IsSpace` restricted to the ASCII space characters. -/
def charIsSpace (c : Char) : Bool :=
  c = ' ' || c = '\t' || c = '\n' || c = '\r' || c = '\x0b' || c = '\x0c'

/-- `strings.TrimSpace`. -/
def goTrim (s : String) : String :=
  ⟨((s.data.dropWhile charIsSpace).reverse.dropWhile charIsSpace).reverse⟩

/-- `bytes.Split(contents, []byte("\n"))`. -/
def splitLines (s : String) : List String :=
  (s.data.splitOn '\n').map (fun l => ⟨l⟩)

/-- `strconv.Atoi`, for the non-negative pids that occur here. -/
def goAtoi (s : String) : Option Nat :=
  if s.data ≠ [] ∧ s.data.all Char.isDigit then
    some (s.data.foldl (fun n c => n * 10 + (c.toNat - '0'.toNat)) 0)
  else none

/-! ## Model primitives -/

def logEv (w : World) (e : Event) : World :=
  { w with trace := w.trace ++ [e] }

def fsGet : List (String × FileData) → String → Option FileData
  | [], _ => none
  | kv :: rest, p => if kv.1 = p then some kv.2 else fsGet rest p

def fsSet : List (String × FileData) → String → FileData →
    List (String × FileData)
  | [], p, d => [(p, d)]
  | kv :: rest, p, d =>
    if kv.1 = p then (p, d) :: rest else kv :: fsSet rest p d

def fsDel : List (String × FileData) → String → List (String × FileData)
  | [], _ => []
  | kv :: rest, p => if kv.1 = p then fsDel rest p else kv :: fsDel rest p

def matchKey (c : Container) (key : String) : Bool :=
  c.id == key || c.names.contains ("/" ++ key)

def findContainer (cs : List Container) (key : String) : Option Container :=
  cs.find? (fun c => matchKey c key)

def setRunning (cs : List Container) (id : String) (b : Bool) :
    List Container :=
  cs.map (fun c => if c.id == id then { c with running := b } else c)

/-- `dockerclient.InspectContainer` by name (or id). -/
def inspectContainer (name : String) (w : World) : Res Container × World :=
  let w := logEv w (.inspect name)
  match w.faults.inspectErr name with
  | some e => (.err e, w)
  | none =>
    match findContainer w.docker name with
    | some c => (.ok c, w)
    | none => (.err .notFound, w)

/-- `dockerclient.CreateContainer`; a fresh container gets id `cid:<name>`,
the single docker-listed name `/<name>`, and the environment-assigned
address. -/
def createContainer (name image user : String) (env : List String)
    (w : World) : Res String × World :=
  let w := logEv w (.create name image user env)
  match w.faults.createErr name with
  | some e => (.err e, w)
  | none =>
    let c : Container :=
      { id := "cid:" ++ name, names := ["/" ++ name], image := image,
        running := false, ip := w.faults.assignedIp name }
    (.ok c.id, { w with docker := w.docker ++ [c] })

/-- `dockerclient.StartContainer`. -/
def startContainer (id : String) (w : World) : Res Unit × World :=
  let w := logEv w (.start id)
  match w.faults.startErr id with
  | some e => (.err e, w)
  | none => (.ok (), { w with docker := setRunning w.docker id true })

/-- `dockerclient.StopContainer`. -/
def stopContainer (id : String) (t : Nat) (w : World) : Res Unit × World :=
  let w := logEv w (.stop id t)
  match w.faults.stopErr id with
  | some e => (.err e, w)
  | none => (.ok (), { w with docker := setRunning w.docker id false })

/-- `dockerclient.RemoveContainer`. -/
def removeContainer (key : String) (w : World) : Res Unit × World :=
  let w := logEv w (.remove key)
  match w.faults.removeErr key with
  | some e => (.err e, w)
  | none =>
    (.ok (), { w with docker := w.docker.filter (fun c => !(matchKey c key)) })

/-- `dockerclient.ListContainers(true)`. -/
def listContainers (w : World) : Res (List Container) × World :=
  let w := logEv w .list
  match w.faults.listErr with
  | some e => (.err e, w)
  | none => (.ok w.docker, w)

/-- `os.Create`: truncate/create the file. -/
def osCreate (path : String) (w : World) : Res Unit × World :=
  let w := logEv w (.fsCreate path)
  match w.faults.fsCreateErr path with
  | some e => (.err e, w)
  | none => (.ok (), { w with fs := fsSet w.fs path .empty })

/-- `template.Execute` into the open file: on failure the destination is
left with garbled partial output. -/
def renderFile (path : String) (d : FileData) (w : World) : Res Unit × World :=
  let w := logEv w (.render path)
  match w.faults.renderErr path with
  | some e => (.err e, { w with fs := fsSet w.fs path .garbled })
  | none => (.ok (), { w with fs := fsSet w.fs path d })

/-- `f.Close()` with its result checked. -/
def osClose (path : String) (w : World) : Res Unit × World :=
  let w := logEv w (.fsClose path)
  match w.faults.fsCloseErr path with
  | some e => (.err e, w)
  | none => (.ok (), w)

/-- `f.Close()` with its result discarded (the bare call in the render
failure branches). -/
def osCloseIgnore (path : String) (w : World) : World :=
  logEv w (.fsClose path)

/-- `os.Remove` with its result discarded (as in the source's cleanup
paths). -/
def osRemoveFile (path : String) (w : World) : World :=
  let w := logEv w (.fsRemove path)
  { w with fs := fsDel w.fs path }

/-- `fmt.Fprint(f, s)`: on failure the destination holds garbled partial
output. -/
def fprintFile (path s : String) (w : World) : Res Unit × World :=
  let w := logEv w (.fsWrite path s)
  match w.faults.fsWriteErr path with
  | some e => (.err e, { w with fs := fsSet w.fs path .garbled })
  | none => (.ok (), { w with fs := fsSet w.fs path (.text s) })

/-- Text seen by a reader of a file (non-text data reads as empty). -/
def textOf : FileData → String
  | .text s => s
  | _ => ""

/-- `ioutil.ReadFile`. -/
def readFile (path : String) (w : World) : Res String × World :=
  let w := logEv w (.fsRead path)
  match w.faults.fsReadErr path with
  | some e => (.err e, w)
  | none =>
    match fsGet w.fs path with
    | some d => (.ok (textOf d), w)
    | none => (.err .fileMissing, w)

/-! ## The deploy command, function by function -/

/-- `filepath.Join(nginxConfDir, prodNginxConfFile)`. -/
def prodConfPath : String := nginxConfDir ++ "/" ++ prodNginxConfFile

/-- `containerNameForTag`. -/
def containerNameForTag (tag : String) : String :=
  rellContainerNamePrefix ++ tag

/-- `(d *Deploy) containerNginxConfPath` (uses only package constants). -/
def containerNginxConfPath (containerName : String) : String :=
  nginxConfDir ++ "/" ++ containerName ++ ".conf"

/-- `tagFromNames`: drops the leading character of each listed name until one
carries the `rell-` prefix; `none` models the Go panic `name[1:]` raises on
an empty name. An exhausted list yields the empty tag. -/
def tagFromNames : List String → Option String
  | [] => some ""
  | n :: rest =>
    if n = "" then none
    else
      let n1 := strDropN n 1
      if strHasPrefix rellContainerNamePrefix n1 then
        some (strDropN n1 rellContainerNamePrefix.length)
      else tagFromNames rest

/-- `(d *Deploy) docker()`: `sync.Once`-guarded construction of the client;
every call returns the memoized outcome, the stored error freshly wrapped. -/
def docker (w : World) : Res Unit × World :=
  match w.clientMemo with
  | some none => (.ok (), w)
  | some (some e) => (.err (.wrap e), w)
  | none =>
    let w1 := logEv w .connect
    if w1.faults.connectOk then
      (.ok (), { w1 with clientMemo := some none })
    else
      (.err (.wrap .connectFail), { w1 with clientMemo := some (some .connectFail) })

/-- The create-and-start tail of `startRedis`. -/
def startRedisCreate (w : World) : Res Unit × World :=
  match createContainer redisContainerName redisImage "" [] w with
  | (.err e, w) => (.err (.wrap e), w)
  | (.panic, w) => (.panic, w)
  | (.ok id, w) =>
    match startContainer id w with
    | (.err e, w) => (.err (.wrap e), w)
    | (.panic, w) => (.panic, w)
    | (.ok _, w) => (.ok (), w)

/-- `(d *Deploy) startRedis()`. -/
def startRedis (w : World) : Res Unit × World :=
  match docker w with
  | (.err e, w) => (.err e, w)
  | (.panic, w) => (.panic, w)
  | (.ok _, w) =>
    match inspectContainer redisContainerName w with
    | (.panic, w) => (.panic, w)
    | (.ok ci, w) =>
      if ci.running then (.ok (), w)
      else
        match removeContainer redisContainerName w with
        | (.err e, w) => (.err (.wrap e), w)
        | (.panic, w) => (.panic, w)
        | (.ok _, w) => startRedisCreate w
    | (.err e, w) =>
      if e.isNotFound then startRedisCreate w
      else (.err (.wrap e), w)

/-- `(d *Deploy) rellEnv()`. -/
def rellEnv (w : World) : Res (List String) × World :=
  match readFile rellEnvFile w with
  | (.err e, w) => (.err (.wrap e), w)
  | (.panic, w) => (.panic, w)
  | (.ok contents, w) =>
    let lines := splitLines contents
    (.ok ((lines.map goTrim).filter (fun s => s ≠ "")), w)

/-- The env-read/create/start tail of `startRell`. -/
def startRellCreate (tag : String) (w : World) : Res Unit × World :=
  match rellEnv w with
  | (.err e, w) => (.err e, w)
  | (.panic, w) => (.panic, w)
  | (.ok env, w) =>
    match createContainer (containerNameForTag tag) (rellImage ++ ":" ++ tag)
        rellUser env w with
    | (.err e, w) => (.err (.wrap e), w)
    | (.panic, w) => (.panic, w)
    | (.ok id, w) =>
      match startContainer id w with
      | (.err e, w) => (.err (.wrap e), w)
      | (.panic, w) => (.panic, w)
      | (.ok _, w) => (.ok (), w)

/-- `(d *Deploy) startRell(tag)`. -/
def startRell (tag : String) (w : World) : Res Unit × World :=
  match docker w with
  | (.err e, w) => (.err e, w)
  | (.panic, w) => (.panic, w)
  | (.ok _, w) =>
    match inspectContainer (containerNameForTag tag) w with
    | (.panic, w) => (.panic, w)
    | (.ok ci, w) =>
      if ci.running then (.ok (), w)
      else
        match removeContainer (containerNameForTag tag) w with
        | (.err e, w) => (.err (.wrap e), w)
        | (.panic, w) => (.panic, w)
        | (.ok _, w) => startRellCreate tag w
    | (.err e, w) =>
      if e.isNotFound then startRellCreate tag w
      else (.err (.wrap e), w)

/-- `(d *Deploy) genTagNginxConf(tag)`. -/
def genTagNginxConf (d : Deploy) (tag : String) (w : World) :
    Res Unit × World :=
  match docker w with
  | (.err e, w) => (.err e, w)
  | (.panic, w) => (.panic, w)
  | (.ok _, w) =>
    match inspectContainer (containerNameForTag tag) w with
    | (.err e, w) => (.err (.wrap e), w)
    | (.panic, w) => (.panic, w)
    | (.ok ci, w) =>
      let containerName := containerNameForTag tag
      let filename := containerNginxConfPath containerName
      match osCreate filename w with
      | (.err e, w) => (.err (.wrap e), w)
      | (.panic, w) => (.panic, w)
      | (.ok _, w) =>
        match renderFile filename
            (.tagConf containerName (tag ++ "." ++ d.serverSuffix) ci.ip
              rellPort d.certFile d.keyFile) w with
        | (.err e, w) =>
          let w := osCloseIgnore filename w
          let w := osRemoveFile filename w
          (.err (.wrap e), w)
        | (.panic, w) => (.panic, w)
        | (.ok _, w) =>
          match osClose filename w with
          | (.err e, w) => (.err (.wrap e), w)
          | (.panic, w) => (.panic, w)
          | (.ok _, w) => (.ok (), w)

/-- `(d *Deploy) switchProd(tag)`. -/
def switchProd (d : Deploy) (tag : String) (w : World) : Res Unit × World :=
  let containerName := containerNameForTag tag
  let filename := prodConfPath
  match osCreate filename w with
  | (.err e, w) => (.err (.wrap e), w)
  | (.panic, w) => (.panic, w)
  | (.ok _, w) =>
    match renderFile filename
        (.prodConf d.serverSuffix containerName d.certFile d.keyFile) w with
    | (.err e, w) =>
      let w := osCloseIgnore filename w
      let w := osRemoveFile filename w
      (.err (.wrap e), w)
    | (.panic, w) => (.panic, w)
    | (.ok _, w) =>
      match osClose filename w with
      | (.err e, w) => (.err (.wrap e), w)
      | (.panic, w) => (.panic, w)
      | (.ok _, w) =>
        let w := logEv w (.mkdirAll "/var/lib/rell")
        match osCreate lastDeployTagFile w with
        | (.err e, w) => (.err (.wrap e), w)
        | (.panic, w) => (.panic, w)
        | (.ok _, w) =>
          match fprintFile lastDeployTagFile tag w with
          | (.err e, w) => (.err (.wrap e), w)
          | (.panic, w) => (.panic, w)
          | (.ok _, w) =>
            match osClose lastDeployTagFile w with
            | (.err e, w) => (.err (.wrap e), w)
            | (.panic, w) => (.panic, w)
            | (.ok _, w) => (.ok (), w)

/-- `(d *Deploy) hupNginx()`. `strconv.Atoi` on the trimmed pid string is
modelled by `String.toNat?`; `os.FindProcess` never fails on Unix. -/
def hupNginx (w : World) : Res Unit × World :=
  match readFile nginxPidFile w with
  | (.err e, w) => (.err (.wrap e), w)
  | (.panic, w) => (.panic, w)
  | (.ok s, w) =>
    match goAtoi (goTrim s) with
    | none => (.err (.wrap .atoiErr), w)
    | some _pid =>
      let w := logEv w .signalHup
      match w.faults.signalErr with
      | some e => (.err (.wrap e), w)
      | none => (.ok (), w)

/-- One step of `infoCheck`'s polling loop, structurally recursive on a
fuel bound; the fuel-exhausted fallback coincides with the timeout branch
and is unreachable whenever `untilT < now + fuel` (which `infoLoop`
guarantees), so the clock alone drives the loop as in the source. -/
def infoLoopGo (fa : Faults) (untilT : Nat) :
    Nat → Nat → Nat → Res Unit × Nat × Nat
  | 0, now, calls =>
    let now1 := now + fa.httpDur calls
    if fa.httpOk calls then (.ok (), now1, calls + 1)
    else (.err (.wrap (fa.httpErr calls)), now1, calls + 1)
  | fuel + 1, now, calls =>
    let now1 := now + fa.httpDur calls
    if fa.httpOk calls then (.ok (), now1, calls + 1)
    else if untilT < now1 then
      (.err (.wrap (fa.httpErr calls)), now1, calls + 1)
    else infoLoopGo fa untilT fuel (now1 + infoCheckSleep) (calls + 1)

/-- The polling loop of `infoCheck`: attempt `calls` runs at time `now`; a
failed probe past the deadline returns the wrapped last error, otherwise the
loop sleeps `infoCheckSleep` and retries. -/
def infoLoop (fa : Faults) (untilT : Nat) (now calls : Nat) :
    Res Unit × Nat × Nat :=
  infoLoopGo fa untilT (untilT + infoCheckSleep - now) now calls

/-- `(d *Deploy) infoCheck(tag)`. -/
def infoCheck (tag : String) (w : World) : Res Unit × World :=
  match docker w with
  | (.err e, w) => (.err e, w)
  | (.panic, w) => (.panic, w)
  | (.ok _, w) =>
    match inspectContainer (containerNameForTag tag) w with
    | (.err e, w) => (.err (.wrap e), w)
    | (.panic, w) => (.panic, w)
    | (.ok _ci, w) =>
      match infoLoop w.faults (w.now + infoCheckMaxWait) w.now w.httpCalls with
      | (r, n, c) => (r, { w with now := n, httpCalls := c })

/-- The image filter `strings.HasPrefix(c.Image, rellImage+":")`. -/
def isRellC (c : Container) : Bool := strHasPrefix (rellImage ++ ":") c.image

/-- The `for _, c := range containers` loop of `killExcept`, threading the
collected removal errors. -/
def killLoop (tag : String) : List Container → List Err → World →
    Res (List Err) × World
  | [], errs, w => (.ok errs, w)
  | c :: rest, errs, w =>
    if !(isRellC c) then killLoop tag rest errs w
    else
      match tagFromNames c.names with
      | none => (.panic, w)
      | some cTag =>
        if cTag = tag then killLoop tag rest errs w
        else
          let cName := containerNameForTag cTag
          let w := osRemoveFile (containerNginxConfPath cName) w
          let w := (stopContainer c.id stopTimeoutSecs w).2
          match removeContainer c.id w with
          | (.ok _, w) => killLoop tag rest errs w
          | (.err e, w) => killLoop tag rest (errs ++ [e]) w
          | (.panic, w) => (.panic, w)

/-- The post-loop aggregation of `killExcept`: no error, the single wrapped
error, or the wrapped `multiError`. -/
def classifyErrs (errs : List Err) : Res Unit :=
  match errs with
  | [] => .ok ()
  | [e] => .err (.wrap e)
  | _ => .err (.wrap (.multi errs))

/-- `(d *Deploy) killExcept(tag)`. -/
def killExcept (tag : String) (w : World) : Res Unit × World :=
  match docker w with
  | (.err e, w) => (.err e, w)
  | (.panic, w) => (.panic, w)
  | (.ok _, w) =>
    match listContainers w with
    | (.err e, w) => (.err (.wrap e), w)
    | (.panic, w) => (.panic, w)
    | (.ok containers, w) =>
      match killLoop tag containers [] w with
      | (.panic, w) => (.panic, w)
      | (.err e, w) => (.err e, w)
      | (.ok errs, w) => (classifyErrs errs, w)

/-- `(d *Deploy) DeployTag(tag, prod)`. -/
def DeployTag (d : Deploy) (tag : String) (prod : Bool) (w : World) :
    Res Unit × World :=
  match startRedis w with
  | (.err e, w) => (.err e, w)
  | (.panic, w) => (.panic, w)
  | (.ok _, w) =>
    match startRell tag w with
    | (.err e, w) => (.err e, w)
    | (.panic, w) => (.panic, w)
    | (.ok _, w) =>
      match genTagNginxConf d tag w with
      | (.err e, w) => (.err e, w)
      | (.panic, w) => (.panic, w)
      | (.ok _, w) =>
        match infoCheck tag w with
        | (.err e, w) => (.err e, w)
        | (.panic, w) => (.panic, w)
        | (.ok _, w) =>
          match (if prod then switchProd d tag w else (.ok (), w)) with
          | (.err e, w) => (.err e, w)
          | (.panic, w) => (.panic, w)
          | (.ok _, w) =>
            match hupNginx w with
            | (.err e, w) => (.err e, w)
            | (.panic, w) => (.panic, w)
            | (.ok _, w) =>
              match (if prod then killExcept tag w else (.ok (), w)) with
              | (.err e, w) => (.err e, w)
              | (.panic, w) => (.panic, w)
              | (.ok _, w) => (.ok (), w)

end Rell

namespace Rell

/-! ## Concrete environments used by witnesses and counterexamples -/

/-- A fault oracle under which every external operation succeeds. -/
def benignFaults : Faults where
  connectOk := true
  inspectErr := fun _ => none
  createErr := fun _ => none
  startErr := fun _ => none
  stopErr := fun _ => none
  removeErr := fun _ => none
  listErr := none
  assignedIp := fun _ => "10.0.0.5"
  fsCreateErr := fun _ => none
  renderErr := fun _ => none
  fsWriteErr := fun _ => none
  fsCloseErr := fun _ => none
  fsReadErr := fun _ => none
  signalErr := none
  httpOk := fun _ => true
  httpErr := fun _ => .inj 0
  httpDur := fun _ => 0

def redisC : Container :=
  ⟨"cid:redis", ["/redis"], "daaku/redis", true, "10.0.0.2"⟩

def rellC (tag : String) : Container :=
  ⟨"cid:rell-" ++ tag, ["/rell-" ++ tag], "daaku/rell:" ++ tag, true, "10.0.0.5"⟩

def baseFs : List (String × FileData) :=
  [(rellEnvFile, .text "A=B"), (nginxPidFile, .text "42")]

/-- A world where redis and the `v42` release are already running and the
client handle is already constructed. -/
def wRun : World :=
  ⟨[redisC, rellC "v42"], baseFs, benignFaults, some none, 0, 0, []⟩

/-! ## Claim C9: memoized client construction -/

/-- C9: the docker client handle is constructed at most once per `Deploy`
value: a call finding the memo populated returns the memoized outcome (the
stored error re-wrapped) and leaves the world — in particular the trace —
untouched; every call leaves the memo populated; and an immediately repeated
call returns the same result with no new connection attempt. -/
theorem docker_memoizes (w : World) :
    (∀ m, w.clientMemo = some m →
      docker w = ((match m with | none => .ok () | some e => .err (.wrap e)), w))
    ∧ (docker w).2.clientMemo ≠ none
    ∧ docker ((docker w).2) = ((docker w).1, (docker w).2) := by
  unfold docker
  rcases h : w.clientMemo with _ | (_ | e)
  · rcases hc : w.faults.connectOk with _ | _ <;> simp [h, hc, logEv]
  · simp [h, logEv]
  · simp [h, logEv]

/-- Witness for C9 at the concrete world `wRun`. -/
theorem docker_memoizes_witness : docker wRun = (.ok (), wRun) :=
  (docker_memoizes wRun).1 none rfl

/-! ## Claim C8: the readiness poll loop -/

theorem infoLoopGo_calls_lt (fa : Faults) (untilT : Nat) :
    ∀ fuel now calls, calls < (infoLoopGo fa untilT fuel now calls).2.2 := by
  intro fuel
  induction fuel with
  | zero =>
    intro now calls
    simp only [infoLoopGo]
    rcases hok : fa.httpOk calls with _ | _ <;> simp
  | succ f ih =>
    intro now calls
    simp only [infoLoopGo]
    rcases hok : fa.httpOk calls with _ | _
    · by_cases hlate : untilT < now + fa.httpDur calls
      · simp only [Bool.false_eq_true, if_false, if_pos hlate]; omega
      · simp only [Bool.false_eq_true, if_false, if_neg hlate]
        have := ih (now + fa.httpDur calls + infoCheckSleep) (calls + 1)
        omega
    · simp

theorem infoLoopGo_no_panic (fa : Faults) (untilT : Nat) :
    ∀ fuel now calls, (infoLoopGo fa untilT fuel now calls).1 ≠ .panic := by
  intro fuel
  induction fuel with
  | zero =>
    intro now calls
    simp only [infoLoopGo]
    rcases hok : fa.httpOk calls with _ | _ <;> simp
  | succ f ih =>
    intro now calls
    simp only [infoLoopGo]
    rcases hok : fa.httpOk calls with _ | _
    · by_cases hlate : untilT < now + fa.httpDur calls
      · simp only [Bool.false_eq_true, if_false, if_pos hlate]; simp
      · simp only [Bool.false_eq_true, if_false, if_neg hlate]
        exact ih _ _
    · simp

theorem infoLoopGo_ok_first (fa : Faults) (untilT : Nat) :
    ∀ fuel now calls, (infoLoopGo fa untilT fuel now calls).1 = .ok () →
      fa.httpOk ((infoLoopGo fa untilT fuel now calls).2.2 - 1) = true ∧
      ∀ j, calls ≤ j → j < (infoLoopGo fa untilT fuel now calls).2.2 - 1 →
        fa.httpOk j = false := by
  intro fuel
  induction fuel with
  | zero =>
    intro now calls
    simp only [infoLoopGo]
    rcases hok : fa.httpOk calls with _ | _
    · simp
    · simp only [if_true, Nat.add_sub_cancel]
      exact fun _ => ⟨hok, fun j hj hj2 => absurd (by omega : calls < calls) (by omega)⟩
  | succ f ih =>
    intro now calls
    simp only [infoLoopGo]
    rcases hok : fa.httpOk calls with _ | _
    · by_cases hlate : untilT < now + fa.httpDur calls
      · simp only [Bool.false_eq_true, if_false, if_pos hlate]; simp
      · simp only [Bool.false_eq_true, if_false, if_neg hlate]
        intro hres
        obtain ⟨ha, hb⟩ := ih (now + fa.httpDur calls + infoCheckSleep) (calls + 1) hres
        refine ⟨ha, fun j hj hj2 => ?_⟩
        rcases Nat.eq_or_lt_of_le hj with rfl | hlt
        · exact hok
        · exact hb j hlt hj2
    · simp only [if_true, Nat.add_sub_cancel]
      exact fun _ => ⟨hok, fun j hj hj2 => absurd (by omega : calls < calls) (by omega)⟩

theorem infoLoopGo_err_last (fa : Faults) (untilT : Nat) :
    ∀ fuel now calls, untilT < now + fuel →
      ∀ e, (infoLoopGo fa untilT fuel now calls).1 = .err e →
        e = .wrap (fa.httpErr ((infoLoopGo fa untilT fuel now calls).2.2 - 1)) ∧
        (∀ j, calls ≤ j → j < (infoLoopGo fa untilT fuel now calls).2.2 →
          fa.httpOk j = false) ∧
        untilT < (infoLoopGo fa untilT fuel now calls).2.1 := by
  intro fuel
  induction fuel with
  | zero =>
    intro now calls hfuel
    simp only [infoLoopGo]
    rcases hok : fa.httpOk calls with _ | _
    · simp only [Bool.false_eq_true, if_false, Nat.add_sub_cancel]
      intro e he
      simp only [Res.err.injEq] at he
      subst he
      refine ⟨rfl, fun j hj hj2 => ?_, by omega⟩
      have : j = calls := by omega
      subst this
      exact hok
    · simp
  | succ f ih =>
    intro now calls hfuel
    simp only [infoLoopGo]
    rcases hok : fa.httpOk calls with _ | _
    · by_cases hlate : untilT < now + fa.httpDur calls
      · simp only [Bool.false_eq_true, if_false, if_pos hlate, Nat.add_sub_cancel]
        intro e he
        simp only [Res.err.injEq] at he
        subst he
        refine ⟨rfl, fun j hj hj2 => ?_, hlate⟩
        have : j = calls := by omega
        subst this
        exact hok
      · simp only [Bool.false_eq_true, if_false, if_neg hlate]
        have hs : infoCheckSleep = 25 := rfl
        intro e he
        obtain ⟨ha, hb, hc⟩ :=
          ih (now + fa.httpDur calls + infoCheckSleep) (calls + 1) (by omega) e he
        refine ⟨ha, fun j hj hj2 => ?_, hc⟩
        rcases Nat.eq_or_lt_of_le hj with rfl | hlt
        · exact hok
        · exact hb j hlt hj2
    · simp

theorem infoLoopGo_time (fa : Faults) (untilT : Nat) :
    ∀ fuel now calls, now ≤ untilT + infoCheckSleep →
      (infoLoopGo fa untilT fuel now calls).2.1 ≤
        untilT + infoCheckSleep +
          fa.httpDur ((infoLoopGo fa untilT fuel now calls).2.2 - 1) := by
  intro fuel
  induction fuel with
  | zero =>
    intro now calls h
    simp only [infoLoopGo]
    rcases hok : fa.httpOk calls with _ | _ <;>
      simp only [Bool.false_eq_true, if_false, if_true, Nat.add_sub_cancel] <;>
      omega
  | succ f ih =>
    intro now calls h
    simp only [infoLoopGo]
    rcases hok : fa.httpOk calls with _ | _
    · by_cases hlate : untilT < now + fa.httpDur calls
      · simp only [Bool.false_eq_true, if_false, if_pos hlate, Nat.add_sub_cancel]
        omega
      · simp only [Bool.false_eq_true, if_false, if_neg hlate]
        exact ih (now + fa.httpDur calls + infoCheckSleep) (calls + 1) (by omega)
    · simp only [if_true, Nat.add_sub_cancel]
      omega

theorem infoLoop_calls_lt (fa : Faults) (untilT now calls : Nat) :
    calls < (infoLoop fa untilT now calls).2.2 :=
  infoLoopGo_calls_lt fa untilT _ now calls

theorem infoLoop_no_panic (fa : Faults) (untilT now calls : Nat) :
    (infoLoop fa untilT now calls).1 ≠ .panic :=
  infoLoopGo_no_panic fa untilT _ now calls

theorem infoLoop_ok_first (fa : Faults) (untilT now calls : Nat) :
    (infoLoop fa untilT now calls).1 = .ok () →
      fa.httpOk ((infoLoop fa untilT now calls).2.2 - 1) = true ∧
      ∀ j, calls ≤ j → j < (infoLoop fa untilT now calls).2.2 - 1 →
        fa.httpOk j = false :=
  infoLoopGo_ok_first fa untilT _ now calls

theorem infoLoop_err_last (fa : Faults) (untilT now calls : Nat) :
    ∀ e, (infoLoop fa untilT now calls).1 = .err e →
      e = .wrap (fa.httpErr ((infoLoop fa untilT now calls).2.2 - 1)) ∧
      (∀ j, calls ≤ j → j < (infoLoop fa untilT now calls).2.2 →
        fa.httpOk j = false) ∧
      untilT < (infoLoop fa untilT now calls).2.1 := by
  have hs : infoCheckSleep = 25 := rfl
  exact infoLoopGo_err_last fa untilT (untilT + infoCheckSleep - now) now calls
    (by omega)

theorem infoLoop_time (fa : Faults) (untilT now calls : Nat)
    (h : now ≤ untilT + infoCheckSleep) :
    (infoLoop fa untilT now calls).2.1 ≤
      untilT + infoCheckSleep +
        fa.httpDur ((infoLoop fa untilT now calls).2.2 - 1) :=
  infoLoopGo_time fa untilT _ now calls h

end Rell

namespace Rell

/-- C8: the readiness poll loop of `infoCheck` returns success immediately
after the first poll that succeeds (every earlier attempted poll failed); if
no poll succeeds it returns a timeout failure wrapping the last underlying
probe error, and only after the configured window has elapsed; and the final
clock is bounded by the window plus one poll interval plus the duration of
the last in-flight probe. -/
theorem infoCheck_poll_contract (tag : String) (w : World)
    (hmemo : w.clientMemo = some none)
    (hins : w.faults.inspectErr (containerNameForTag tag) = none)
    (hfound : ∃ c, findContainer w.docker (containerNameForTag tag) = some c) :
    w.httpCalls < (infoCheck tag w).2.httpCalls ∧
    ((infoCheck tag w).1 = .ok () →
      w.faults.httpOk ((infoCheck tag w).2.httpCalls - 1) = true ∧
      ∀ j, w.httpCalls ≤ j → j < (infoCheck tag w).2.httpCalls - 1 →
        w.faults.httpOk j = false) ∧
    (∀ e, (infoCheck tag w).1 = .err e →
      e = .wrap (w.faults.httpErr ((infoCheck tag w).2.httpCalls - 1)) ∧
      (∀ j, w.httpCalls ≤ j → j < (infoCheck tag w).2.httpCalls →
        w.faults.httpOk j = false) ∧
      w.now + infoCheckMaxWait < (infoCheck tag w).2.now) ∧
    ((infoCheck tag w).2.now ≤
      w.now + infoCheckMaxWait + infoCheckSleep +
        w.faults.httpDur ((infoCheck tag w).2.httpCalls - 1)) := by
  obtain ⟨c, hc⟩ := hfound
  have hw : infoCheck tag w =
      ((infoLoop w.faults (w.now + infoCheckMaxWait) w.now w.httpCalls).1,
       { logEv w (.inspect (containerNameForTag tag)) with
          now := (infoLoop w.faults (w.now + infoCheckMaxWait) w.now w.httpCalls).2.1,
          httpCalls := (infoLoop w.faults (w.now + infoCheckMaxWait) w.now w.httpCalls).2.2 }) := by
    unfold infoCheck docker inspectContainer
    simp only [hmemo, logEv]
    simp only [hins, hc]
  rw [hw]
  simp only [logEv]
  refine ⟨infoLoop_calls_lt _ _ _ _, ?_, ?_, ?_⟩
  · exact infoLoop_ok_first _ _ _ _
  · exact infoLoop_err_last _ _ _ _
  · exact infoLoop_time _ _ _ _ (by omega)

/-- Witness for C8: in the ready world `wRun` the probe loop runs at least
one poll. -/
theorem infoCheck_poll_contract_witness :
    0 < (infoCheck "v42" wRun).2.httpCalls :=
  (infoCheck_poll_contract "v42" wRun rfl rfl ⟨rellC "v42", rfl⟩).1

end Rell

namespace Rell


theorem fsGet_fsSet_same (fs : List (String × FileData)) (p : String)
    (d : FileData) : fsGet (fsSet fs p d) p = some d := by
  induction fs with
  | nil => simp [fsSet, fsGet]
  | cons kv rest ih =>
    by_cases h : kv.1 = p <;> simp [fsSet, fsGet, h, ih]

theorem fsGet_fsSet_other (fs : List (String × FileData)) (p q : String)
    (d : FileData) (h : p ≠ q) : fsGet (fsSet fs p d) q = fsGet fs q := by
  induction fs with
  | nil => simp [fsSet, fsGet, h]
  | cons kv rest ih =>
    by_cases h2 : kv.1 = p
    · simp [fsSet, fsGet, h2, h]
    · simp only [fsSet, if_neg h2, fsGet]
      by_cases h3 : kv.1 = q <;> simp [h3, ih]

theorem fsGet_fsDel_same (fs : List (String × FileData)) (p : String) :
    fsGet (fsDel fs p) p = none := by
  induction fs with
  | nil => simp [fsDel, fsGet]
  | cons kv rest ih =>
    by_cases h : kv.1 = p <;> simp [fsDel, fsGet, h, ih]

theorem fsGet_fsDel_other (fs : List (String × FileData)) (p q : String)
    (h : p ≠ q) : fsGet (fsDel fs p) q = fsGet fs q := by
  induction fs with
  | nil => simp [fsDel, fsGet]
  | cons kv rest ih =>
    by_cases h2 : kv.1 = p
    · subst h2
      simp [fsDel, fsGet, ih, h]
    · simp only [fsDel, if_neg h2, fsGet]
      by_cases h3 : kv.1 = q <;> simp [h3, ih]

/-- C4: `switchProd` writes the production config strictly before the
last-applied-tag file: if the production config write fails at create,
render, or close, it returns an error and the last-applied-tag file is never
touched (no create/write/close/remove event for it, contents unchanged); on
success the trace shows the config events strictly before the tag-file
events, the tag file holds exactly the tag string, and the production
config's backend name is the container name for the tag. -/
theorem switchProd_order (d : Deploy) (tag : String) (w : World) :
    ((w.faults.fsCreateErr prodConfPath ≠ none ∨
      w.faults.renderErr prodConfPath ≠ none ∨
      w.faults.fsCloseErr prodConfPath ≠ none) →
      (∃ e, (switchProd d tag w).1 = .err e) ∧
      fsGet (switchProd d tag w).2.fs lastDeployTagFile =
        fsGet w.fs lastDeployTagFile ∧
      (∃ t, (switchProd d tag w).2.trace = w.trace ++ t ∧
        Event.fsCreate lastDeployTagFile ∉ t ∧
        (∀ s, Event.fsWrite lastDeployTagFile s ∉ t) ∧
        Event.fsClose lastDeployTagFile ∉ t ∧
        Event.fsRemove lastDeployTagFile ∉ t)) ∧
    ((switchProd d tag w).1 = .ok () →
      (switchProd d tag w).2.trace = w.trace ++
        [.fsCreate prodConfPath, .render prodConfPath, .fsClose prodConfPath,
         .mkdirAll "/var/lib/rell", .fsCreate lastDeployTagFile,
         .fsWrite lastDeployTagFile tag, .fsClose lastDeployTagFile] ∧
      fsGet (switchProd d tag w).2.fs lastDeployTagFile = some (.text tag) ∧
      fsGet (switchProd d tag w).2.fs prodConfPath =
        some (.prodConf d.serverSuffix (containerNameForTag tag)
          d.certFile d.keyFile)) := by
  have hne : prodConfPath ≠ lastDeployTagFile := by decide
  have hne2 : lastDeployTagFile ≠ prodConfPath := by decide
  unfold switchProd osCreate renderFile osClose fprintFile osCloseIgnore
    osRemoveFile logEv
  rcases h1 : w.faults.fsCreateErr prodConfPath with _ | e1
  case some =>
    simp only [h1]
    refine ⟨fun _ => ⟨⟨.wrap e1, rfl⟩, by trivial,
      ⟨[.fsCreate prodConfPath], by simp, by decide, by simp, by decide,
       by decide⟩⟩, fun h => by simp at h⟩
  case none =>
  rcases h2 : w.faults.renderErr prodConfPath with _ | e2
  case some =>
    simp only [h1, h2]
    refine ⟨fun _ => ⟨⟨.wrap e2, rfl⟩, ?_,
      ⟨[.fsCreate prodConfPath, .render prodConfPath, .fsClose prodConfPath,
        .fsRemove prodConfPath], by simp, by decide, by simp, by decide,
       by decide⟩⟩, fun h => by simp at h⟩
    rw [fsGet_fsDel_other _ _ _ hne, fsGet_fsSet_other _ _ _ _ hne,
      fsGet_fsSet_other _ _ _ _ hne]
  case none =>
  rcases h3 : w.faults.fsCloseErr prodConfPath with _ | e3
  case some =>
    simp only [h1, h2, h3]
    refine ⟨fun _ => ⟨⟨.wrap e3, rfl⟩, ?_,
      ⟨[.fsCreate prodConfPath, .render prodConfPath, .fsClose prodConfPath],
       by simp, by decide, by simp, by decide, by decide⟩⟩,
      fun h => by simp at h⟩
    rw [fsGet_fsSet_other _ _ _ _ hne, fsGet_fsSet_other _ _ _ _ hne]
  case none =>
  rcases h4 : w.faults.fsCreateErr lastDeployTagFile with _ | e4
  case some =>
    simp only [h1, h2, h3, h4]
    exact ⟨fun hf => by simp at hf, fun h => by simp at h⟩
  case none =>
  rcases h5 : w.faults.fsWriteErr lastDeployTagFile with _ | e5
  case some =>
    simp only [h1, h2, h3, h4, h5]
    exact ⟨fun hf => by simp at hf, fun h => by simp at h⟩
  case none =>
  rcases h6 : w.faults.fsCloseErr lastDeployTagFile with _ | e6
  case some =>
    simp only [h1, h2, h3, h4, h5, h6]
    exact ⟨fun hf => by simp at hf, fun h => by simp at h⟩
  case none =>
    simp only [h1, h2, h3, h4, h5, h6]
    refine ⟨fun hf => by simp at hf, fun _ => ⟨by simp, ?_, ?_⟩⟩
    · rw [fsGet_fsSet_same]
    · rw [fsGet_fsSet_other _ _ _ _ hne2, fsGet_fsSet_other _ _ _ _ hne2,
        fsGet_fsSet_same]


def dRun : Deploy :=
  ⟨"unix:///var/run/docker.sock", "minetti.fbrell.com", "/cert.pem", "/key.pem"⟩

/-- `wRun` with a render failure injected at the production config path. -/
def wRenderFail : World :=
  { wRun with faults :=
      { benignFaults with renderErr :=
          fun p => if p = prodConfPath then some (.inj 7) else none } }

/-- Witness for C4: with a failing production-config render the tag file is
untouched; on the benign world the tag file ends up holding exactly the
tag. -/
theorem switchProd_order_witness :
    fsGet (switchProd dRun "v42" wRenderFail).2.fs lastDeployTagFile =
      fsGet wRenderFail.fs lastDeployTagFile ∧
    fsGet (switchProd dRun "v42" wRun).2.fs lastDeployTagFile =
      some (.text "v42") :=
  ⟨((switchProd_order dRun "v42" wRenderFail).1 (Or.inr (Or.inl (by simp [wRenderFail, benignFaults])))).2.1,
   ((switchProd_order dRun "v42" wRun).2 rfl).2.1⟩

end Rell

namespace Rell


def wCloseFail : World :=
  { wRun with faults :=
      { benignFaults with fsCloseErr :=
          fun p => if p = containerNginxConfPath "rell-v42" then some (.inj 3)
                   else none } }

/-- C5 counterexample: with a failing final close, `genTagNginxConf` returns
an error even though the (fully rendered) config file is still present on
disk, so "error after the file was created implies the file was removed"
fails as stated. -/
theorem genTagNginxConf_close_leaves_file :
    (genTagNginxConf dRun "v42" wCloseFail).1 = .err (.wrap (.inj 3)) ∧
    fsGet (genTagNginxConf dRun "v42" wCloseFail).2.fs
        (containerNginxConfPath (containerNameForTag "v42")) =
      some (.tagConf "rell-v42" "v42.minetti.fbrell.com" "10.0.0.5" 43600
        "/cert.pem" "/key.pem") :=
  ⟨rfl, rfl⟩

/-- C5 (amended): on a template-render failure `genTagNginxConf` removes the
destination file before returning the wrapped error; a failure of the final
close instead leaves the fully rendered config in place and returns an
error; on success the rendered config is present.  Hence a present file
always carries fully rendered content — render failures never leave partial
output — but a present file does not imply the call succeeded. -/
theorem genTagNginxConf_render_cleanup (d : Deploy) (tag : String)
    (w : World) (c : Container)
    (hmemo : w.clientMemo = some none)
    (hins : w.faults.inspectErr (containerNameForTag tag) = none)
    (hfound : findContainer w.docker (containerNameForTag tag) = some c)
    (hcr : w.faults.fsCreateErr
      (containerNginxConfPath (containerNameForTag tag)) = none) :
    (∀ e, w.faults.renderErr
        (containerNginxConfPath (containerNameForTag tag)) = some e →
      (genTagNginxConf d tag w).1 = .err (.wrap e) ∧
      fsGet (genTagNginxConf d tag w).2.fs
        (containerNginxConfPath (containerNameForTag tag)) = none) ∧
    (w.faults.renderErr (containerNginxConfPath (containerNameForTag tag)) =
        none →
      ∀ e, w.faults.fsCloseErr
          (containerNginxConfPath (containerNameForTag tag)) = some e →
        (genTagNginxConf d tag w).1 = .err (.wrap e) ∧
        fsGet (genTagNginxConf d tag w).2.fs
          (containerNginxConfPath (containerNameForTag tag)) =
          some (.tagConf (containerNameForTag tag) (tag ++ "." ++ d.serverSuffix)
            c.ip rellPort d.certFile d.keyFile)) ∧
    (w.faults.renderErr (containerNginxConfPath (containerNameForTag tag)) =
        none →
      w.faults.fsCloseErr (containerNginxConfPath (containerNameForTag tag)) =
        none →
      (genTagNginxConf d tag w).1 = .ok () ∧
      fsGet (genTagNginxConf d tag w).2.fs
        (containerNginxConfPath (containerNameForTag tag)) =
        some (.tagConf (containerNameForTag tag) (tag ++ "." ++ d.serverSuffix)
          c.ip rellPort d.certFile d.keyFile)) := by
  unfold genTagNginxConf docker inspectContainer osCreate renderFile osClose
    osCloseIgnore osRemoveFile logEv
  simp only [hmemo, hins, hfound, hcr]
  refine ⟨fun e hre => ?_, fun hre e hcl => ?_, fun hre hcl => ?_⟩
  · simp only [hre]
    exact ⟨by trivial, fsGet_fsDel_same _ _⟩
  · simp only [hre, hcl]
    exact ⟨by trivial, by rw [fsGet_fsSet_same]⟩
  · simp only [hre, hcl]
    exact ⟨by trivial, by rw [fsGet_fsSet_same]⟩


/-- `wRun` with a render failure injected at the `v42` upstream config. -/
def wTagRenderFail : World :=
  { wRun with faults :=
      { benignFaults with renderErr :=
          fun p => if p = containerNginxConfPath "rell-v42" then some (.inj 9)
                   else none } }

/-- Witness for C5's amended theorem: a failed render leaves no file. -/
theorem genTagNginxConf_render_cleanup_witness :
    fsGet (genTagNginxConf dRun "v42" wTagRenderFail).2.fs
      (containerNginxConfPath (containerNameForTag "v42")) = none :=
  ((genTagNginxConf_render_cleanup dRun "v42" wTagRenderFail (rellC "v42")
    rfl rfl rfl rfl).1 (.inj 9) rfl).2

end Rell

namespace Rell


def isCreateEv : Event → Bool
  | .create _ _ _ _ => true
  | _ => false

def isStartEv : Event → Bool
  | .start _ => true
  | _ => false

def isRemoveEv : Event → Bool
  | .remove _ => true
  | _ => false

theorem matchKey_setElem (c : Container) (id : String) (b : Bool) (key : String) :
    matchKey (if c.id == id then { c with running := b } else c) key =
      matchKey c key := by
  by_cases h : c.id == id <;> simp [h, matchKey]

theorem findContainer_setRunning (cs : List Container) (id : String) (b : Bool)
    (key : String) :
    findContainer (setRunning cs id b) key =
      (findContainer cs key).map
        (fun c => if c.id == id then { c with running := b } else c) := by
  unfold findContainer setRunning
  rw [List.find?_map]
  have hp : ((fun c => matchKey c key) ∘ fun c =>
      if (c.id == id) = true then { c with running := b } else c) =
      (fun c => matchKey c key) := by
    funext c
    simp only [Function.comp_apply]
    exact matchKey_setElem c id b key
  rw [hp]

theorem findContainer_append_none (xs ys : List Container) (key : String)
    (h : findContainer xs key = none) :
    findContainer (xs ++ ys) key = findContainer ys key := by
  unfold findContainer at *
  rw [List.find?_append, h, Option.none_or]

theorem findContainer_filter_not (cs : List Container) (key : String) :
    findContainer (cs.filter (fun c => !(matchKey c key))) key = none := by
  unfold findContainer
  rw [List.find?_eq_none]
  intro c hc
  simp only [List.mem_filter] at hc
  simpa using hc.2


end Rell

namespace Rell


theorem startRell_stale_path (tag : String) (w : World) (c : Container)
    (hmemo : w.clientMemo = some none)
    (hins : w.faults.inspectErr (containerNameForTag tag) = none)
    (hfound : findContainer w.docker (containerNameForTag tag) = some c)
    (hstale : c.running = false) :
    ∃ t, (startRell tag w).2.trace =
      w.trace ++ [.inspect (containerNameForTag tag),
        .remove (containerNameForTag tag)] ++ t ∧
      (∀ i, Event.start i ∈ t → i = "cid:" ++ containerNameForTag tag) := by
  unfold startRell docker inspectContainer removeContainer startRellCreate
    rellEnv readFile createContainer startContainer logEv
  simp only [hmemo, hins, hfound, hstale, if_false, Bool.false_eq_true]
  rcases h1 : w.faults.removeErr (containerNameForTag tag) with _ | e1
  case some =>
    simp only [h1]
    exact ⟨[], by simp, by simp⟩
  case none =>
  simp only [h1]
  rcases h2 : w.faults.fsReadErr rellEnvFile with _ | e2
  case some =>
    simp only [h2]
    exact ⟨[.fsRead rellEnvFile], by simp, by simp⟩
  case none =>
  simp only [h2]
  rcases h3 : fsGet w.fs rellEnvFile with _ | d
  case none =>
    simp only [h3]
    exact ⟨[.fsRead rellEnvFile], by simp, by simp⟩
  case some =>
  simp only [h3]
  rcases h4 : w.faults.createErr (containerNameForTag tag) with _ | e4
  case some =>
    simp only [h4]
    exact ⟨[.fsRead rellEnvFile,
      .create (containerNameForTag tag) (rellImage ++ ":" ++ tag) rellUser
        ((splitLines (textOf d)).map goTrim |>.filter (fun s => s ≠ ""))],
      by simp, by simp⟩
  case none =>
  simp only [h4]
  rcases h5 : w.faults.startErr ("cid:" ++ containerNameForTag tag) with _ | e5
  case some =>
    simp only [h5]
    refine ⟨[.fsRead rellEnvFile,
      .create (containerNameForTag tag) (rellImage ++ ":" ++ tag) rellUser
        ((splitLines (textOf d)).map goTrim |>.filter (fun s => s ≠ "")),
      .start ("cid:" ++ containerNameForTag tag)], by simp, ?_⟩
    intro i hi
    simp only [List.mem_cons, List.mem_singleton] at hi
    rcases hi with h | h | h <;> simp_all
  case none =>
    simp only [h5]
    refine ⟨[.fsRead rellEnvFile,
      .create (containerNameForTag tag) (rellImage ++ ":" ++ tag) rellUser
        ((splitLines (textOf d)).map goTrim |>.filter (fun s => s ≠ "")),
      .start ("cid:" ++ containerNameForTag tag)], by simp, ?_⟩
    intro i hi
    simp only [List.mem_cons, List.mem_singleton] at hi
    rcases hi with h | h | h <;> simp_all




theorem startRedis_stale_path (w : World) (c : Container)
    (hmemo : w.clientMemo = some none)
    (hins : w.faults.inspectErr redisContainerName = none)
    (hfound : findContainer w.docker redisContainerName = some c)
    (hstale : c.running = false) :
    ∃ t, (startRedis w).2.trace =
      w.trace ++ [.inspect redisContainerName, .remove redisContainerName] ++ t ∧
      (∀ i, Event.start i ∈ t → i = "cid:" ++ redisContainerName) := by
  unfold startRedis docker inspectContainer removeContainer startRedisCreate
    createContainer startContainer logEv
  simp only [hmemo, hins, hfound, hstale, if_false, Bool.false_eq_true]
  rcases h1 : w.faults.removeErr redisContainerName with _ | e1
  case some =>
    simp only [h1]
    exact ⟨[], by simp, by simp⟩
  case none =>
  simp only [h1]
  rcases h4 : w.faults.createErr redisContainerName with _ | e4
  case some =>
    simp only [h4]
    exact ⟨[.create redisContainerName redisImage "" []], by simp, by simp⟩
  case none =>
  simp only [h4]
  rcases h5 : w.faults.startErr ("cid:" ++ redisContainerName) with _ | e5
  case some =>
    simp only [h5]
    refine ⟨[.create redisContainerName redisImage "" [],
      .start ("cid:" ++ redisContainerName)], by simp, ?_⟩
    intro i hi
    simp only [List.mem_cons, List.mem_singleton] at hi
    rcases hi with h | h <;> simp_all
  case none =>
    simp only [h5]
    refine ⟨[.create redisContainerName redisImage "" [],
      .start ("cid:" ++ redisContainerName)], by simp, ?_⟩
    intro i hi
    simp only [List.mem_cons, List.mem_singleton] at hi
    rcases hi with h | h <;> simp_all

theorem startRell_inspect_fatal (tag : String) (w : World) (e : Err)
    (hmemo : w.clientMemo = some none)
    (hins : w.faults.inspectErr (containerNameForTag tag) = some e)
    (hnf : e.isNotFound = false) :
    startRell tag w =
      (.err (.wrap e), logEv w (.inspect (containerNameForTag tag))) := by
  unfold startRell docker inspectContainer
  simp only [logEv, hmemo, hins, hnf, if_false, Bool.false_eq_true]

theorem startRedis_inspect_fatal (w : World) (e : Err)
    (hmemo : w.clientMemo = some none)
    (hins : w.faults.inspectErr redisContainerName = some e)
    (hnf : e.isNotFound = false) :
    startRedis w = (.err (.wrap e), logEv w (.inspect redisContainerName)) := by
  unfold startRedis docker inspectContainer
  simp only [logEv, hmemo, hins, hnf, if_false, Bool.false_eq_true]




theorem startRell_noop (tag : String) (w : World) (c : Container)
    (hmemo : w.clientMemo = some none)
    (hins : w.faults.inspectErr (containerNameForTag tag) = none)
    (hfound : findContainer w.docker (containerNameForTag tag) = some c)
    (hrun : c.running = true) :
    startRell tag w = (.ok (), logEv w (.inspect (containerNameForTag tag))) := by
  unfold startRell docker inspectContainer
  simp only [logEv, hmemo, hins, hfound, hrun, if_true]

def freshRell (tag : String) (w : World) : Container :=
  ⟨"cid:" ++ containerNameForTag tag, ["/" ++ containerNameForTag tag],
   rellImage ++ ":" ++ tag, false, w.faults.assignedIp (containerNameForTag tag)⟩

theorem startRell_ok_cases (tag : String) (w : World)
    (hmemo : w.clientMemo = some none)
    (hins : w.faults.inspectErr (containerNameForTag tag) = none)
    (hok : (startRell tag w).1 = .ok ()) :
    (startRell tag w).2.clientMemo = some none ∧
    (startRell tag w).2.faults = w.faults ∧
    ((∃ c, findContainer w.docker (containerNameForTag tag) = some c ∧
        c.running = true ∧ (startRell tag w).2.docker = w.docker) ∨
     (∃ base, findContainer base (containerNameForTag tag) = none ∧
        (startRell tag w).2.docker =
          setRunning (base ++ [freshRell tag w])
            ("cid:" ++ containerNameForTag tag) true)) := by
  unfold startRell docker inspectContainer removeContainer startRellCreate
    rellEnv readFile createContainer startContainer logEv at *
  simp only [logEv, hmemo, hins] at *
  rcases hf : findContainer w.docker (containerNameForTag tag) with _ | c
  case some =>
    simp only [hf] at hok ⊢
    rcases hrun : c.running with _ | _
    case true =>
      simp only [hrun, if_true] at hok ⊢
      exact ⟨by trivial, by trivial, Or.inl ⟨c, by trivial, hrun, by trivial⟩⟩
    case false =>
      simp only [hrun, Bool.false_eq_true, if_false] at hok ⊢
      rcases h1 : w.faults.removeErr (containerNameForTag tag) with _ | e1
      case some => simp [h1] at hok
      case none =>
      simp only [h1] at hok ⊢
      rcases h2 : w.faults.fsReadErr rellEnvFile with _ | e2
      case some => simp [h2] at hok
      case none =>
      simp only [h2] at hok ⊢
      rcases h3 : fsGet w.fs rellEnvFile with _ | d
      case none => simp [h3] at hok
      case some =>
      simp only [h3] at hok ⊢
      rcases h4 : w.faults.createErr (containerNameForTag tag) with _ | e4
      case some => simp [h4] at hok
      case none =>
      simp only [h4] at hok ⊢
      rcases h5 : w.faults.startErr ("cid:" ++ containerNameForTag tag) with _ | e5
      case some => simp [h5] at hok
      case none =>
      simp only [h5]
      refine ⟨by trivial, by trivial, Or.inr ⟨w.docker.filter
        (fun c => !(matchKey c (containerNameForTag tag))), ?_, by trivial⟩⟩
      exact findContainer_filter_not _ _
  case none =>
    simp only [hf] at hok ⊢
    simp only [Err.isNotFound, if_true] at hok ⊢
    rcases h2 : w.faults.fsReadErr rellEnvFile with _ | e2
    case some => simp [h2] at hok
    case none =>
    simp only [h2] at hok ⊢
    rcases h3 : fsGet w.fs rellEnvFile with _ | d
    case none => simp [h3] at hok
    case some =>
    simp only [h3] at hok ⊢
    rcases h4 : w.faults.createErr (containerNameForTag tag) with _ | e4
    case some => simp [h4] at hok
    case none =>
    simp only [h4] at hok ⊢
    rcases h5 : w.faults.startErr ("cid:" ++ containerNameForTag tag) with _ | e5
    case some => simp [h5] at hok
    case none =>
    simp only [h5]
    exact ⟨by trivial, by trivial, Or.inr ⟨w.docker, hf, by trivial⟩⟩




theorem startRell_second_noop (tag : String) (w : World)
    (hmemo : w.clientMemo = some none)
    (hins : w.faults.inspectErr (containerNameForTag tag) = none)
    (hok : (startRell tag w).1 = .ok ()) :
    startRell tag ((startRell tag w).2) =
      (.ok (), logEv ((startRell tag w).2)
        (.inspect (containerNameForTag tag))) := by
  obtain ⟨hm1, hfa, hcase⟩ := startRell_ok_cases tag w hmemo hins hok
  rcases hcase with ⟨c, hf, hr, hd⟩ | ⟨base, hb, hd⟩
  · exact startRell_noop tag _ c hm1 (by rw [hfa]; exact hins)
      (by rw [hd]; exact hf) hr
  · refine startRell_noop tag _ { freshRell tag w with running := true } hm1
      (by rw [hfa]; exact hins) ?_ rfl
    rw [hd, findContainer_setRunning, findContainer_append_none _ _ _ hb]
    have hone : findContainer [freshRell tag w] (containerNameForTag tag) =
        some (freshRell tag w) := by
      simp [findContainer, matchKey, freshRell]
    rw [hone]
    simp [freshRell]

theorem startRell_absent_trace (tag : String) (w : World)
    (hmemo : w.clientMemo = some none)
    (hins : w.faults.inspectErr (containerNameForTag tag) = none)
    (hnone : findContainer w.docker (containerNameForTag tag) = none)
    (hok : (startRell tag w).1 = .ok ()) :
    ∃ env, (startRell tag w).2.trace = w.trace ++
      [.inspect (containerNameForTag tag), .fsRead rellEnvFile,
       .create (containerNameForTag tag) (rellImage ++ ":" ++ tag) rellUser env,
       .start ("cid:" ++ containerNameForTag tag)] := by
  unfold startRell docker inspectContainer startRellCreate rellEnv readFile
    createContainer startContainer logEv at *
  simp only [logEv, hmemo, hins, hnone, Err.isNotFound, if_true] at *
  rcases h2 : w.faults.fsReadErr rellEnvFile with _ | e2
  case some => simp [h2] at hok
  case none =>
  simp only [h2] at hok ⊢
  rcases h3 : fsGet w.fs rellEnvFile with _ | d
  case none => simp [h3] at hok
  case some =>
  simp only [h3] at hok ⊢
  rcases h4 : w.faults.createErr (containerNameForTag tag) with _ | e4
  case some => simp [h4] at hok
  case none =>
  simp only [h4] at hok ⊢
  rcases h5 : w.faults.startErr ("cid:" ++ containerNameForTag tag) with _ | e5
  case some => simp [h5] at hok
  case none =>
  simp only [h5]
  exact ⟨((splitLines (textOf d)).map goTrim).filter
    (fun s => s ≠ ""), by simp⟩


/-- C7: a release (or cache) container that exists but is not running is
removed before a fresh one is created and started: the trace shows the
remove immediately after the inspect, before any create/start, and every
start event issued afterwards targets the freshly created container, never
the stale one; an inspect error other than not-found is returned wrapped,
with no further action. Stated for `startRell` and `startRedis`. -/
theorem ensureRunning_stale_replaced (tag : String) (w : World)
    (hmemo : w.clientMemo = some none) :
    (∀ c, w.faults.inspectErr (containerNameForTag tag) = none →
      findContainer w.docker (containerNameForTag tag) = some c →
      c.running = false →
      ∃ t, (startRell tag w).2.trace =
        w.trace ++ [.inspect (containerNameForTag tag),
          .remove (containerNameForTag tag)] ++ t ∧
        (∀ i, Event.start i ∈ t → i = "cid:" ++ containerNameForTag tag)) ∧
    (∀ e, w.faults.inspectErr (containerNameForTag tag) = some e →
      e.isNotFound = false →
      startRell tag w =
        (.err (.wrap e), logEv w (.inspect (containerNameForTag tag)))) ∧
    (∀ c, w.faults.inspectErr redisContainerName = none →
      findContainer w.docker redisContainerName = some c →
      c.running = false →
      ∃ t, (startRedis w).2.trace =
        w.trace ++ [.inspect redisContainerName,
          .remove redisContainerName] ++ t ∧
        (∀ i, Event.start i ∈ t → i = "cid:" ++ redisContainerName)) ∧
    (∀ e, w.faults.inspectErr redisContainerName = some e →
      e.isNotFound = false →
      startRedis w =
        (.err (.wrap e), logEv w (.inspect redisContainerName))) :=
  ⟨fun c h1 h2 h3 => startRell_stale_path tag w c hmemo h1 h2 h3,
   fun e h1 h2 => startRell_inspect_fatal tag w e hmemo h1 h2,
   fun c h1 h2 h3 => startRedis_stale_path w c hmemo h1 h2 h3,
   fun e h1 h2 => startRedis_inspect_fatal w e hmemo h1 h2⟩

/-- A world whose only container is a stopped `v42` release. -/
def wStale : World :=
  ⟨[{ rellC "v42" with running := false }], baseFs, benignFaults,
   some none, 0, 0, []⟩

/-- Witness for C7 at the stale world. -/
theorem ensureRunning_stale_replaced_witness :
    ∃ t, (startRell "v42" wStale).2.trace =
      wStale.trace ++ [.inspect (containerNameForTag "v42"),
        .remove (containerNameForTag "v42")] ++ t ∧
      (∀ i, Event.start i ∈ t → i = "cid:" ++ containerNameForTag "v42") :=
  (ensureRunning_stale_replaced "v42" wStale rfl).1
    { rellC "v42" with running := false } rfl rfl rfl

/-- An empty-docker world with the client constructed and config files in
place. -/
def wEmpty : World := ⟨[], baseFs, benignFaults, some none, 0, 0, []⟩

/-- C6: `startRell` is idempotent: if inspect finds the tag's container
already running, the call is a pure no-op (it records only the inspect, so
no create, start, or remove happens); after any successful call an
immediately repeated call is such a no-op; hence starting from a state
without the container, two successive invocations perform exactly one
create and one start and no remove. -/
theorem startRell_idempotent (tag : String) (w : World)
    (hmemo : w.clientMemo = some none)
    (hins : w.faults.inspectErr (containerNameForTag tag) = none) :
    (∀ c, findContainer w.docker (containerNameForTag tag) = some c →
      c.running = true →
      startRell tag w =
        (.ok (), logEv w (.inspect (containerNameForTag tag)))) ∧
    ((startRell tag w).1 = .ok () →
      startRell tag ((startRell tag w).2) =
        (.ok (), logEv ((startRell tag w).2)
          (.inspect (containerNameForTag tag)))) ∧
    (findContainer w.docker (containerNameForTag tag) = none →
      (startRell tag w).1 = .ok () →
      (startRell tag ((startRell tag w).2)).2.trace.countP isCreateEv =
        w.trace.countP isCreateEv + 1 ∧
      (startRell tag ((startRell tag w).2)).2.trace.countP isStartEv =
        w.trace.countP isStartEv + 1 ∧
      (startRell tag ((startRell tag w).2)).2.trace.countP isRemoveEv =
        w.trace.countP isRemoveEv) := by
  refine ⟨fun c hf hr => startRell_noop tag w c hmemo hins hf hr,
    fun hok => startRell_second_noop tag w hmemo hins hok,
    fun hnone hok => ?_⟩
  obtain ⟨env, htr⟩ := startRell_absent_trace tag w hmemo hins hnone hok
  have hsecond := startRell_second_noop tag w hmemo hins hok
  rw [hsecond]
  simp only [logEv, List.countP_append, htr]
  refine ⟨?_, ?_, ?_⟩ <;>
    simp [List.countP_cons, isCreateEv, isStartEv, isRemoveEv]

/-- Witness for C6: the running world no-ops; from the empty world two runs
create exactly once. -/
theorem startRell_idempotent_witness :
    startRell "v42" wRun =
      (.ok (), logEv wRun (.inspect (containerNameForTag "v42"))) ∧
    (startRell "v42" ((startRell "v42" wEmpty).2)).2.trace.countP isCreateEv =
      wEmpty.trace.countP isCreateEv + 1 :=
  ⟨(startRell_idempotent "v42" wRun rfl rfl).1 (rellC "v42") rfl rfl,
   ((startRell_idempotent "v42" wEmpty rfl rfl).2.2 rfl rfl).1⟩

end Rell

namespace Rell


theorem containerNameForTag_inj (a b : String)
    (h : containerNameForTag a = containerNameForTag b) : a = b := by
  unfold containerNameForTag rellContainerNamePrefix at h
  have hd := congrArg String.data h
  simp only [String.data_append] at hd
  have h2 := List.append_cancel_left hd
  cases a; cases b; simp_all

theorem containerNginxConfPath_inj (a b : String)
    (h : containerNginxConfPath a = containerNginxConfPath b) : a = b := by
  unfold containerNginxConfPath nginxConfDir at h
  have hd := congrArg String.data h
  simp only [String.data_append, List.append_assoc] at hd
  have h2 := List.append_cancel_right
    (List.append_cancel_left (List.append_cancel_left hd))
  cases a; cases b; simp_all

/-- Removal errors collected by a cleanup sweep over the listed containers,
in processing order. -/
def sweepErrs (fa : Faults) (tag : String) : List Container → List Err
  | [] => []
  | c :: rest =>
    if !(isRellC c) then sweepErrs fa tag rest
    else
      match tagFromNames c.names with
      | none => []
      | some t =>
        if t = tag then sweepErrs fa tag rest
        else
          match fa.removeErr c.id with
          | none => sweepErrs fa tag rest
          | some e => e :: sweepErrs fa tag rest

theorem killLoop_all_attempted (tag : String) (cs : List Container) :
    ∀ errs w,
    (∀ c ∈ cs, isRellC c = true → tagFromNames c.names ≠ none) →
    ∃ w', killLoop tag cs errs w =
        (.ok (errs ++ sweepErrs w.faults tag cs), w') ∧
      w'.faults = w.faults ∧
      (∃ t, w'.trace = w.trace ++ t) ∧
      ∀ c ∈ cs, isRellC c = true → ∀ ct, tagFromNames c.names = some ct →
        ct ≠ tag →
        (Event.stop c.id stopTimeoutSecs) ∈ w'.trace ∧
        (Event.remove c.id) ∈ w'.trace ∧
        (Event.fsRemove (containerNginxConfPath (containerNameForTag ct))) ∈
          w'.trace := by
  induction cs with
  | nil =>
    intro errs w _
    exact ⟨w, by simp [killLoop, sweepErrs], rfl, ⟨[], by simp⟩, by simp⟩
  | cons c rest ih =>
    intro errs w hnp
    have hnp' : ∀ x ∈ rest, isRellC x = true → tagFromNames x.names ≠ none :=
      fun x hx => hnp x (List.mem_cons_of_mem c hx)
    by_cases himg : isRellC c = true
    case neg =>
      have himg' : isRellC c = false := by simpa using himg
      obtain ⟨w', h1, h2, ⟨t, h3⟩, h4⟩ := ih errs w hnp'
      refine ⟨w', ?_, h2, ⟨t, h3⟩, ?_⟩
      · rw [killLoop]
        simp only [himg', Bool.not_false, if_true]
        rw [h1]
        simp [sweepErrs, himg']
      · intro x hx hxi ct hct hne
        rcases List.mem_cons.mp hx with rfl | hx2
        · exact absurd hxi himg
        · exact h4 x hx2 hxi ct hct hne
    case pos =>
      rcases htn : tagFromNames c.names with _ | ct0
      case none =>
        exact absurd htn (hnp c (List.mem_cons_self c rest) himg)
      case some =>
      by_cases htag : ct0 = tag
      case pos =>
        subst htag
        obtain ⟨w', h1, h2, ⟨t, h3⟩, h4⟩ := ih errs w hnp'
        refine ⟨w', ?_, h2, ⟨t, h3⟩, ?_⟩
        · rw [killLoop]
          simp only [himg, Bool.not_true, Bool.false_eq_true, if_false, htn,
            if_pos rfl]
          rw [h1]
          simp [sweepErrs, himg, htn]
        · intro x hx hxi ct hct hne
          rcases List.mem_cons.mp hx with rfl | hx2
          · have h5 := hct.symm.trans htn
            simp only [Option.some.injEq] at h5
            exact absurd h5 hne
          · exact h4 x hx2 hxi ct hct hne
      case neg =>
        rw [killLoop]
        simp only [himg, Bool.not_true, Bool.false_eq_true, if_false, htn,
          if_neg htag]
        unfold osRemoveFile stopContainer removeContainer logEv
        rcases hstop : w.faults.stopErr c.id with _ | es <;>
          simp only [hstop] <;>
          rcases hrem : w.faults.removeErr c.id with _ | e <;>
          simp only [hrem]
        case none.none =>
          obtain ⟨w', h1, h2, ⟨t, h3⟩, h4⟩ := ih errs _ hnp'
          refine ⟨w', by rw [h1]; simp [sweepErrs, himg, htn, htag, hrem],
            by rw [h2], ⟨[Event.fsRemove (containerNginxConfPath
              (containerNameForTag ct0)),
              Event.stop c.id stopTimeoutSecs, Event.remove c.id] ++ t,
             by rw [h3]; simp⟩, ?_⟩
          intro x hx hxi ct hct hne
          rcases List.mem_cons.mp hx with rfl | hx2
          · have h5 := hct.symm.trans htn
            simp only [Option.some.injEq] at h5
            subst h5
            refine ⟨?_, ?_, ?_⟩ <;> (rw [h3]; simp)
          · exact h4 x hx2 hxi ct hct hne
        case none.some =>
          obtain ⟨w', h1, h2, ⟨t, h3⟩, h4⟩ := ih (errs ++ [e]) _ hnp'
          refine ⟨w', by rw [h1]; simp [sweepErrs, himg, htn, htag, hrem],
            by rw [h2], ⟨[Event.fsRemove (containerNginxConfPath
              (containerNameForTag ct0)),
              Event.stop c.id stopTimeoutSecs, Event.remove c.id] ++ t,
             by rw [h3]; simp⟩, ?_⟩
          intro x hx hxi ct hct hne
          rcases List.mem_cons.mp hx with rfl | hx2
          · have h5 := hct.symm.trans htn
            simp only [Option.some.injEq] at h5
            subst h5
            refine ⟨?_, ?_, ?_⟩ <;> (rw [h3]; simp)
          · exact h4 x hx2 hxi ct hct hne
        case some.none =>
          obtain ⟨w', h1, h2, ⟨t, h3⟩, h4⟩ := ih errs _ hnp'
          refine ⟨w', by rw [h1]; simp [sweepErrs, himg, htn, htag, hrem],
            by rw [h2], ⟨[Event.fsRemove (containerNginxConfPath
              (containerNameForTag ct0)),
              Event.stop c.id stopTimeoutSecs, Event.remove c.id] ++ t,
             by rw [h3]; simp⟩, ?_⟩
          intro x hx hxi ct hct hne
          rcases List.mem_cons.mp hx with rfl | hx2
          · have h5 := hct.symm.trans htn
            simp only [Option.some.injEq] at h5
            subst h5
            refine ⟨?_, ?_, ?_⟩ <;> (rw [h3]; simp)
          · exact h4 x hx2 hxi ct hct hne
        case some.some =>
          obtain ⟨w', h1, h2, ⟨t, h3⟩, h4⟩ := ih (errs ++ [e]) _ hnp'
          refine ⟨w', by rw [h1]; simp [sweepErrs, himg, htn, htag, hrem],
            by rw [h2], ⟨[Event.fsRemove (containerNginxConfPath
              (containerNameForTag ct0)),
              Event.stop c.id stopTimeoutSecs, Event.remove c.id] ++ t,
             by rw [h3]; simp⟩, ?_⟩
          intro x hx hxi ct hct hne
          rcases List.mem_cons.mp hx with rfl | hx2
          · have h5 := hct.symm.trans htn
            simp only [Option.some.injEq] at h5
            subst h5
            refine ⟨?_, ?_, ?_⟩ <;> (rw [h3]; simp)
          · exact h4 x hx2 hxi ct hct hne


end Rell

namespace Rell


theorem mem_setRunning_of_ne (cs : List Container) (id : String) (b : Bool)
    (c : Container) (h : (c.id == id) = false) (hc : c ∈ cs) :
    c ∈ setRunning cs id b := by
  unfold setRunning
  refine List.mem_map.mpr ⟨c, hc, ?_⟩
  simp [h]

theorem sweep_events_disjoint (c x : Container) (t0 tag : String)
    (hid : (c.id == x.id) = false)
    (hpath : containerNginxConfPath (containerNameForTag t0) ≠
      containerNginxConfPath (containerNameForTag tag)) :
    (∀ s, Event.stop c.id s ∉
      [Event.fsRemove (containerNginxConfPath (containerNameForTag t0)),
       Event.stop x.id stopTimeoutSecs, Event.remove x.id]) ∧
    Event.remove c.id ∉
      [Event.fsRemove (containerNginxConfPath (containerNameForTag t0)),
       Event.stop x.id stopTimeoutSecs, Event.remove x.id] ∧
    Event.fsRemove (containerNginxConfPath (containerNameForTag tag)) ∉
      [Event.fsRemove (containerNginxConfPath (containerNameForTag t0)),
       Event.stop x.id stopTimeoutSecs, Event.remove x.id] := by
  have hne : c.id ≠ x.id := by simpa using hid
  refine ⟨fun s hs => ?_, fun hs => ?_, fun hs => ?_⟩ <;>
    simp only [List.mem_cons, List.not_mem_nil, or_false] at hs
  · rcases hs with h | h | h
    · simp at h
    · simp only [Event.stop.injEq] at h
      exact hne h.1
    · simp at h
  · rcases hs with h | h | h
    · simp at h
    · simp at h
    · simp only [Event.remove.injEq] at h
      exact hne h
  · rcases hs with h | h | h
    · simp only [Event.fsRemove.injEq] at h
      exact hpath h.symm
    · simp at h
    · simp at h

theorem killLoop_spares (tag : String) (c : Container) (cs : List Container) :
    ∀ errs w,
    (∀ c' ∈ cs, isRellC c' = true → ∀ t', tagFromNames c'.names = some t' →
      t' ≠ tag → matchKey c c'.id = false) →
    ∃ t, (killLoop tag cs errs w).2.trace = w.trace ++ t ∧
      (∀ s, Event.stop c.id s ∉ t) ∧
      Event.remove c.id ∉ t ∧
      Event.fsRemove (containerNginxConfPath (containerNameForTag tag)) ∉ t ∧
      fsGet (killLoop tag cs errs w).2.fs
          (containerNginxConfPath (containerNameForTag tag)) =
        fsGet w.fs (containerNginxConfPath (containerNameForTag tag)) ∧
      (c ∈ w.docker → c ∈ (killLoop tag cs errs w).2.docker) := by
  induction cs with
  | nil =>
    intro errs w _
    exact ⟨[], by simp [killLoop], by simp, by simp, by simp,
      by simp [killLoop], fun h => by simpa [killLoop] using h⟩
  | cons x rest ih =>
    intro errs w hmk
    have hmk' : ∀ c' ∈ rest, isRellC c' = true → ∀ t',
        tagFromNames c'.names = some t' → t' ≠ tag →
        matchKey c c'.id = false :=
      fun c' h' => hmk c' (List.mem_cons_of_mem x h')
    by_cases himg : isRellC x = true
    case neg =>
      have himg' : isRellC x = false := by simpa using himg
      obtain ⟨t, h1, h2, h3, h4, h5, h6⟩ := ih errs w hmk'
      refine ⟨t, ?_, h2, h3, h4, ?_, ?_⟩ <;>
        rw [killLoop] <;> simp only [himg', Bool.not_false, if_true]
      · exact h1
      · exact h5
      · exact h6
    case pos =>
      rcases htn : tagFromNames x.names with _ | t0
      case none =>
        have himg' : (!(isRellC x)) = false := by simp [himg]
        refine ⟨[], ?_, by simp, by simp, by simp, ?_, ?_⟩ <;>
          rw [killLoop] <;> simp [himg', htn]
      case some =>
      by_cases htag : t0 = tag
      case pos =>
        subst htag
        obtain ⟨t, h1, h2, h3, h4, h5, h6⟩ := ih errs w hmk'
        refine ⟨t, ?_, h2, h3, h4, ?_, ?_⟩ <;>
          rw [killLoop] <;>
          simp only [himg, Bool.not_true, Bool.false_eq_true, if_false, htn,
            if_pos rfl]
        · exact h1
        · exact h5
        · exact h6
      case neg =>
        have hmkx : matchKey c x.id = false :=
          hmk x (List.mem_cons_self x rest) himg t0 htn htag
        have hid : (c.id == x.id) = false := by
          unfold matchKey at hmkx
          simp only [Bool.or_eq_false_iff] at hmkx
          exact hmkx.1
        have hpath : containerNginxConfPath (containerNameForTag t0) ≠
            containerNginxConfPath (containerNameForTag tag) := by
          intro hp
          exact htag (containerNameForTag_inj _ _
            (containerNginxConfPath_inj _ _ hp))
        rw [killLoop]
        simp only [himg, Bool.not_true, Bool.false_eq_true, if_false, htn,
          if_neg htag]
        unfold osRemoveFile stopContainer removeContainer logEv
        rcases hstop : w.faults.stopErr x.id with _ | es <;>
          simp only [hstop] <;>
          rcases hrem : w.faults.removeErr x.id with _ | e <;>
          simp only [hrem]
        case none.none =>
          obtain ⟨t, h1, h2, h3, h4, h5, h6⟩ := ih errs _ hmk'
          refine ⟨[Event.fsRemove (containerNginxConfPath
              (containerNameForTag t0)),
            Event.stop x.id stopTimeoutSecs, Event.remove x.id] ++ t,
            by rw [h1]; simp, ?_, ?_, ?_, ?_, ?_⟩
          · intro s hs
            rcases List.mem_append.mp hs with h | h
            · exact (sweep_events_disjoint c x t0 tag hid hpath).1 s h
            · exact h2 s h
          · intro hs
            rcases List.mem_append.mp hs with h | h
            · exact (sweep_events_disjoint c x t0 tag hid hpath).2.1 h
            · exact h3 h
          · intro hs
            rcases List.mem_append.mp hs with h | h
            · exact (sweep_events_disjoint c x t0 tag hid hpath).2.2 h
            · exact h4 h
          · rw [h5]
            simp only []
            exact fsGet_fsDel_other _ _ _ hpath
          · intro hcw
            apply h6
            simp only []
            exact List.mem_filter.mpr
              ⟨mem_setRunning_of_ne _ _ _ _ hid hcw, by simp [hmkx]⟩
        case none.some =>
          obtain ⟨t, h1, h2, h3, h4, h5, h6⟩ := ih (errs ++ [e]) _ hmk'
          refine ⟨[Event.fsRemove (containerNginxConfPath
              (containerNameForTag t0)),
            Event.stop x.id stopTimeoutSecs, Event.remove x.id] ++ t,
            by rw [h1]; simp, ?_, ?_, ?_, ?_, ?_⟩
          · intro s hs
            rcases List.mem_append.mp hs with h | h
            · exact (sweep_events_disjoint c x t0 tag hid hpath).1 s h
            · exact h2 s h
          · intro hs
            rcases List.mem_append.mp hs with h | h
            · exact (sweep_events_disjoint c x t0 tag hid hpath).2.1 h
            · exact h3 h
          · intro hs
            rcases List.mem_append.mp hs with h | h
            · exact (sweep_events_disjoint c x t0 tag hid hpath).2.2 h
            · exact h4 h
          · rw [h5]
            simp only []
            exact fsGet_fsDel_other _ _ _ hpath
          · intro hcw
            apply h6
            simp only []
            exact mem_setRunning_of_ne _ _ _ _ hid hcw
        case some.none =>
          obtain ⟨t, h1, h2, h3, h4, h5, h6⟩ := ih errs _ hmk'
          refine ⟨[Event.fsRemove (containerNginxConfPath
              (containerNameForTag t0)),
            Event.stop x.id stopTimeoutSecs, Event.remove x.id] ++ t,
            by rw [h1]; simp, ?_, ?_, ?_, ?_, ?_⟩
          · intro s hs
            rcases List.mem_append.mp hs with h | h
            · exact (sweep_events_disjoint c x t0 tag hid hpath).1 s h
            · exact h2 s h
          · intro hs
            rcases List.mem_append.mp hs with h | h
            · exact (sweep_events_disjoint c x t0 tag hid hpath).2.1 h
            · exact h3 h
          · intro hs
            rcases List.mem_append.mp hs with h | h
            · exact (sweep_events_disjoint c x t0 tag hid hpath).2.2 h
            · exact h4 h
          · rw [h5]
            simp only []
            exact fsGet_fsDel_other _ _ _ hpath
          · intro hcw
            apply h6
            simp only []
            exact List.mem_filter.mpr ⟨hcw, by simp [hmkx]⟩
        case some.some =>
          obtain ⟨t, h1, h2, h3, h4, h5, h6⟩ := ih (errs ++ [e]) _ hmk'
          refine ⟨[Event.fsRemove (containerNginxConfPath
              (containerNameForTag t0)),
            Event.stop x.id stopTimeoutSecs, Event.remove x.id] ++ t,
            by rw [h1]; simp, ?_, ?_, ?_, ?_, ?_⟩
          · intro s hs
            rcases List.mem_append.mp hs with h | h
            · exact (sweep_events_disjoint c x t0 tag hid hpath).1 s h
            · exact h2 s h
          · intro hs
            rcases List.mem_append.mp hs with h | h
            · exact (sweep_events_disjoint c x t0 tag hid hpath).2.1 h
            · exact h3 h
          · intro hs
            rcases List.mem_append.mp hs with h | h
            · exact (sweep_events_disjoint c x t0 tag hid hpath).2.2 h
            · exact h4 h
          · rw [h5]
            simp only []
            exact fsGet_fsDel_other _ _ _ hpath
          · intro hcw
            exact h6 hcw


end Rell

namespace Rell


/-- C1: a cleanup sweep never touches the container whose derived tag equals
the current tag, nor its upstream config file: no stop or remove event for
that container and no delete of its config file occur in the sweep's trace,
the config file's contents are preserved, and the container itself survives
in the daemon's list (assuming, as docker guarantees, that the protected
container does not share its id or names with the retired ones). -/
theorem killExcept_spares_current (tag : String) (w : World) (c : Container)
    (_hprot : tagFromNames c.names = some tag)
    (hsep : ∀ c' ∈ w.docker, tagFromNames c'.names ≠ some tag →
      matchKey c c'.id = false) :
    ∃ t, (killExcept tag w).2.trace = w.trace ++ t ∧
      (∀ s, Event.stop c.id s ∉ t) ∧
      Event.remove c.id ∉ t ∧
      Event.fsRemove (containerNginxConfPath (containerNameForTag tag)) ∉ t ∧
      fsGet (killExcept tag w).2.fs
          (containerNginxConfPath (containerNameForTag tag)) =
        fsGet w.fs (containerNginxConfPath (containerNameForTag tag)) ∧
      (c ∈ w.docker → c ∈ (killExcept tag w).2.docker) := by
  have hmk : ∀ c' ∈ w.docker, isRellC c' = true → ∀ t',
      tagFromNames c'.names = some t' → t' ≠ tag →
      matchKey c c'.id = false := by
    intro c' h' _ t' ht' hne
    refine hsep c' h' ?_
    rw [ht']
    simp only [ne_eq, Option.some.injEq]
    exact hne
  unfold killExcept docker listContainers logEv
  rcases hm : w.clientMemo with _ | (_ | e0)
  case some.none =>
    simp only
    rcases hl : w.faults.listErr with _ | el
    case some =>
      simp only [hl]
      exact ⟨[.list], by simp, by simp, by simp, by simp, by simp,
        fun h => by simpa using h⟩
    case none =>
      simp only [hl]
      obtain ⟨t, h1, h2, h3, h4, h5, h6⟩ :=
        killLoop_spares tag c w.docker []
          { w with trace := w.trace ++ [.list] } hmk
      rcases hk : killLoop tag w.docker []
          { w with trace := w.trace ++ [.list] } with ⟨r, w'⟩
      rw [hk] at h1 h5 h6
      simp only at h1 h5 h6
      refine ⟨[Event.list] ++ t, ?_, ?_, ?_, ?_, ?_, ?_⟩
      · cases r <;> simp only [] <;> rw [h1] <;> simp
      · intro s hs
        rcases List.mem_append.mp hs with h | h
        · simp at h
        · exact h2 s h
      · intro hs
        rcases List.mem_append.mp hs with h | h
        · simp at h
        · exact h3 h
      · intro hs
        rcases List.mem_append.mp hs with h | h
        · simp at h
        · exact h4 h
      · cases r <;> simp only [] <;> exact h5
      · intro hc
        cases r <;> simp only [] <;> exact h6 hc
  case some.some =>
    exact ⟨[], by simp, by simp, by simp, by simp, by simp,
      fun h => by simpa using h⟩
  case none =>
    rcases hco : w.faults.connectOk with _ | _
    case false =>
      simp only [hco, Bool.false_eq_true, if_false]
      exact ⟨[.connect], by simp, by simp, by simp, by simp, by simp,
        fun h => by simpa using h⟩
    case true =>
      simp only [hco, if_true]
      rcases hl : w.faults.listErr with _ | el
      case some =>
        simp only [hl]
        exact ⟨[.connect, .list], by simp, by simp, by simp, by simp, by simp,
          fun h => by simpa using h⟩
      case none =>
        simp only [hl]
        obtain ⟨t, h1, h2, h3, h4, h5, h6⟩ :=
          killLoop_spares tag c w.docker []
            { w with clientMemo := some none,
                     trace := w.trace ++ [.connect] ++ [.list] } hmk
        rcases hk : killLoop tag w.docker []
            { w with clientMemo := some none,
                     trace := w.trace ++ [.connect] ++ [.list] } with ⟨r, w'⟩
        rw [hk] at h1 h5 h6
        simp only at h1 h5 h6
        refine ⟨[Event.connect, Event.list] ++ t, ?_, ?_, ?_, ?_, ?_, ?_⟩
        · cases r <;> simp only [] <;> rw [h1] <;> simp
        · intro s hs
          rcases List.mem_append.mp hs with h | h
          · simp at h
          · exact h2 s h
        · intro hs
          rcases List.mem_append.mp hs with h | h
          · simp at h
          · exact h3 h
        · intro hs
          rcases List.mem_append.mp hs with h | h
          · simp at h
          · exact h4 h
        · cases r <;> simp only [] <;> exact h5
        · intro hc
          cases r <;> simp only [] <;> exact h6 hc


/-- A world with the promoted `v42` release, an old `v41` release and the
redis cache all present. -/
def wMulti : World :=
  ⟨[redisC, rellC "v42", rellC "v41"], baseFs, benignFaults,
   some none, 0, 0, []⟩

/-- Witness for C1 at the three-container world. -/
theorem killExcept_spares_current_witness :
    ∃ t, (killExcept "v42" wMulti).2.trace = wMulti.trace ++ t ∧
      (∀ s, Event.stop (rellC "v42").id s ∉ t) ∧
      Event.remove (rellC "v42").id ∉ t ∧
      Event.fsRemove (containerNginxConfPath (containerNameForTag "v42")) ∉ t ∧
      fsGet (killExcept "v42" wMulti).2.fs
          (containerNginxConfPath (containerNameForTag "v42")) =
        fsGet wMulti.fs (containerNginxConfPath (containerNameForTag "v42")) ∧
      (rellC "v42" ∈ wMulti.docker →
        rellC "v42" ∈ (killExcept "v42" wMulti).2.docker) :=
  killExcept_spares_current "v42" wMulti (rellC "v42") (by decide) (by
    intro c' h' hn
    fin_cases h'
    · decide
    · exact absurd (by decide) hn
    · decide)


end Rell

namespace Rell


def withStopErr (w : World) (g : String → Option Err) : World :=
  { w with faults := { w.faults with stopErr := g } }

theorem sweepErrs_stopIrrelevant (fa : Faults) (g : String → Option Err)
    (tag : String) (cs : List Container) :
    sweepErrs { fa with stopErr := g } tag cs = sweepErrs fa tag cs := by
  induction cs with
  | nil => rfl
  | cons c rest ih => simp only [sweepErrs, ih]

theorem killExcept_classified (tag : String) (w : World)
    (hmemo : w.clientMemo = some none)
    (hlist : w.faults.listErr = none)
    (hnp : ∀ c ∈ w.docker, isRellC c = true → tagFromNames c.names ≠ none) :
    (killExcept tag w).1 = classifyErrs (sweepErrs w.faults tag w.docker) ∧
    ∀ c ∈ w.docker, isRellC c = true → ∀ ct, tagFromNames c.names = some ct →
      ct ≠ tag →
      Event.stop c.id stopTimeoutSecs ∈ (killExcept tag w).2.trace ∧
      Event.remove c.id ∈ (killExcept tag w).2.trace ∧
      Event.fsRemove (containerNginxConfPath (containerNameForTag ct)) ∈
        (killExcept tag w).2.trace := by
  obtain ⟨w', h1, h2, h3, h4⟩ :=
    killLoop_all_attempted tag w.docker []
      { w with trace := w.trace ++ [.list] } hnp
  have hke : killExcept tag w =
      match killLoop tag w.docker []
        { w with clientMemo := some none,
                 trace := w.trace ++ [Event.list] } with
      | (.panic, w) => (.panic, w)
      | (.err e, w) => (.err e, w)
      | (.ok errs, w) => (classifyErrs errs, w) := by
    unfold killExcept docker listContainers logEv
    simp only [hmemo, hlist]
  simp only [hmemo] at h1
  rw [hke, h1]
  simp only [List.nil_append]
  refine ⟨by trivial, ?_⟩
  intro c hc hi ct hct hne
  exact h4 c hc hi ct hct hne




/-- C3: a cleanup sweep attempts config deletion, stop and removal for every
non-current release container regardless of earlier failures: each such
container's stop, remove and config-delete events appear in the trace; the
overall result is exactly the classification of the collected removal
errors — success for none, the single wrapped error for one, the wrapped
multi-error holding all of them in order otherwise; and stop failures are
ignored entirely (the result is unchanged under any stop-fault oracle). -/
theorem killExcept_aggregates (tag : String) (w : World)
    (hmemo : w.clientMemo = some none)
    (hlist : w.faults.listErr = none)
    (hnp : ∀ c ∈ w.docker, isRellC c = true → tagFromNames c.names ≠ none) :
    (sweepErrs w.faults tag w.docker = [] → (killExcept tag w).1 = .ok ()) ∧
    (∀ e, sweepErrs w.faults tag w.docker = [e] →
      (killExcept tag w).1 = .err (.wrap e)) ∧
    (∀ e1 e2 es, sweepErrs w.faults tag w.docker = e1 :: e2 :: es →
      (killExcept tag w).1 = .err (.wrap (.multi (e1 :: e2 :: es)))) ∧
    (∀ g, (killExcept tag (withStopErr w g)).1 = (killExcept tag w).1) ∧
    (∀ c ∈ w.docker, isRellC c = true → ∀ ct, tagFromNames c.names = some ct →
      ct ≠ tag →
      Event.stop c.id stopTimeoutSecs ∈ (killExcept tag w).2.trace ∧
      Event.remove c.id ∈ (killExcept tag w).2.trace ∧
      Event.fsRemove (containerNginxConfPath (containerNameForTag ct)) ∈
        (killExcept tag w).2.trace) := by
  obtain ⟨hcl, hatt⟩ := killExcept_classified tag w hmemo hlist hnp
  refine ⟨?_, ?_, ?_, ?_, hatt⟩
  · intro hE
    rw [hcl, hE]
    rfl
  · intro e hE
    rw [hcl, hE]
    rfl
  · intro e1 e2 es hE
    rw [hcl, hE]
    rfl
  · intro g
    have h2 := (killExcept_classified tag (withStopErr w g)
      (by simpa [withStopErr] using hmemo)
      (by simpa [withStopErr] using hlist)
      (by simpa [withStopErr] using hnp)).1
    rw [hcl, h2]
    simp only [withStopErr]
    rw [sweepErrs_stopIrrelevant]




/-- A world with three release containers where removing `v40` and `v41`
fails with distinct errors. -/
def wKillFail : World :=
  ⟨[rellC "v40", rellC "v41", rellC "v42"], baseFs,
   { benignFaults with removeErr := fun i =>
      if i = "cid:rell-v40" then some (.inj 1)
      else if i = "cid:rell-v41" then some (.inj 2) else none },
   some none, 0, 0, []⟩

/-- Witness for C3: two removal failures are aggregated into one wrapped
multi-error listing both. -/
theorem killExcept_aggregates_witness :
    (killExcept "v42" wKillFail).1 = .err (.wrap (.multi [.inj 1, .inj 2])) :=
  (killExcept_aggregates "v42" wKillFail rfl rfl
    (by intro c hc _; fin_cases hc <;> decide)).2.2.1 (.inj 1) (.inj 2) [] rfl


end Rell

namespace Rell


/-- A world whose single release container carries a non-prefixed second
name that is the empty string, after a matching first name. -/
def wEmptyName : World :=
  ⟨[⟨"cid:1", ["/rell-x", ""], "daaku/rell:x", true, "10.0.0.9"⟩], baseFs,
   benignFaults, some none, 0, 0, []⟩

/-- C10 counterexample: an empty name string does not necessarily make the
sweep panic — here the tag is derived from the earlier matching name, the
empty name is never sliced, and `killExcept` completes normally. -/
theorem tagFromNames_empty_name_no_panic :
    tagFromNames ["/rell-x", ""] = some "x" ∧
    (killExcept "v42" wEmptyName).1 = .ok () :=
  ⟨rfl, rfl⟩

theorem killExcept_panics_on_bad_head (tag : String) (w : World)
    (c : Container) (rest : List Container)
    (hmemo : w.clientMemo = some none) (hlist : w.faults.listErr = none)
    (hd : w.docker = c :: rest) (himg : isRellC c = true)
    (htn : tagFromNames c.names = none) :
    (killExcept tag w).1 = .panic := by
  have hke : killExcept tag w =
      match killLoop tag w.docker []
        { w with clientMemo := some none,
                 trace := w.trace ++ [Event.list] } with
      | (.panic, w) => (.panic, w)
      | (.err e, w) => (.err e, w)
      | (.ok errs, w) => (classifyErrs errs, w) := by
    unfold killExcept docker listContainers logEv
    simp only [hmemo, hlist]
  rw [hke, hd, killLoop]
  simp [himg, htn]

/-- C10 (amended): `tagFromNames` slices `name[1:]` of each listed name only
until the first one carrying the `rell-` prefix, and panics exactly when an
empty name occurs before any such match — so it is total on name lists whose
entries are all non-empty, and an empty name after a match is harmless; a
rell-image container heading the list with such a panicking name list makes
`killExcept` panic rather than return an error; and a release container none
of whose names match yields the empty tag, so with a non-empty current tag
it is stopped and removed and `/etc/nginx/server/rell-.conf` is deleted. -/
theorem tagFromNames_empty_name_semantics (tag : String) :
    (∀ ns, tagFromNames ns = none ↔ ∃ l r, ns = l ++ "" :: r ∧
      ∀ n ∈ l, n ≠ "" ∧
        strHasPrefix rellContainerNamePrefix (strDropN n 1) = false) ∧
    (∀ ns, (∀ n ∈ ns, n ≠ "") → tagFromNames ns ≠ none) ∧
    (∀ w c rest, w.clientMemo = some none → w.faults.listErr = none →
      w.docker = c :: rest → isRellC c = true →
      tagFromNames c.names = none → (killExcept tag w).1 = .panic) ∧
    containerNginxConfPath (containerNameForTag "") =
      "/etc/nginx/server/rell-.conf" ∧
    (∀ w c, w.clientMemo = some none → w.faults.listErr = none →
      (∀ x ∈ w.docker, isRellC x = true → tagFromNames x.names ≠ none) →
      c ∈ w.docker → isRellC c = true → tagFromNames c.names = some "" →
      tag ≠ "" →
      Event.stop c.id stopTimeoutSecs ∈ (killExcept tag w).2.trace ∧
      Event.remove c.id ∈ (killExcept tag w).2.trace ∧
      Event.fsRemove "/etc/nginx/server/rell-.conf" ∈
        (killExcept tag w).2.trace) := by
  have hiff : ∀ ns, tagFromNames ns = none ↔ ∃ l r, ns = l ++ "" :: r ∧
      ∀ n ∈ l, n ≠ "" ∧
        strHasPrefix rellContainerNamePrefix (strDropN n 1) = false := by
    intro ns
    induction ns with
    | nil =>
      simp only [tagFromNames]
      constructor
      · intro h; cases h
      · rintro ⟨l, r, heq, -⟩
        exact absurd heq (by simp)
    | cons n rest ih =>
      by_cases hn : n = ""
      · subst hn
        constructor
        · intro _
          exact ⟨[], rest, rfl, by simp⟩
        · intro _
          simp [tagFromNames]
      · simp only [tagFromNames, if_neg hn]
        by_cases hp : strHasPrefix rellContainerNamePrefix (strDropN n 1) = true
        · simp only [hp, if_true]
          constructor
          · intro h; cases h
          · rintro ⟨l, r, heq, hall⟩
            cases l with
            | nil =>
              simp only [List.nil_append, List.cons.injEq] at heq
              exact absurd heq.1 hn
            | cons a l' =>
              simp only [List.cons_append, List.cons.injEq] at heq
              obtain ⟨rfl, -⟩ := heq
              have h2 := (hall n (by simp)).2
              simp [h2] at hp
        · have hp' : strHasPrefix rellContainerNamePrefix (strDropN n 1) =
              false := by simpa using hp
          simp only [hp', Bool.false_eq_true, if_false]
          rw [ih]
          constructor
          · rintro ⟨l, r, heq, hall⟩
            refine ⟨n :: l, r, by simp [heq], ?_⟩
            intro m hm
            rcases List.mem_cons.mp hm with rfl | hm2
            · exact ⟨hn, hp'⟩
            · exact hall m hm2
          · rintro ⟨l, r, heq, hall⟩
            cases l with
            | nil =>
              simp only [List.nil_append, List.cons.injEq] at heq
              exact absurd heq.1 hn
            | cons a l' =>
              simp only [List.cons_append, List.cons.injEq] at heq
              obtain ⟨rfl, heq2⟩ := heq
              exact ⟨l', r, heq2,
                fun m hm => hall m (List.mem_cons_of_mem _ hm)⟩
  refine ⟨hiff, ?_, ?_, rfl, ?_⟩
  · intro ns hne hnone
    obtain ⟨l, r, heq, -⟩ := (hiff ns).mp hnone
    exact hne "" (by rw [heq]; simp) rfl
  · intro w c rest hmemo hlist hd himg htn
    exact killExcept_panics_on_bad_head tag w c rest hmemo hlist hd himg htn
  · intro w c hmemo hlist hnp hc hi hct hne
    obtain ⟨-, hatt⟩ := killExcept_classified tag w hmemo hlist hnp
    have h := hatt c hc hi "" hct (fun h => hne h.symm)
    exact ⟨h.1, h.2.1, h.2.2⟩

/-- A world whose single release container's only listed name is empty. -/
def wBadName : World :=
  ⟨[⟨"cid:9", [""], "daaku/rell:x", true, "10.0.0.9"⟩], baseFs,
   benignFaults, some none, 0, 0, []⟩

/-- Witness for C10's amended theorem: the sweep panics at `wBadName`. -/
theorem tagFromNames_empty_name_semantics_witness :
    (killExcept "v42" wBadName).1 = .panic :=
  (tagFromNames_empty_name_semantics "v42").2.2.1 wBadName
    ⟨"cid:9", [""], "daaku/rell:x", true, "10.0.0.9"⟩ [] rfl rfl rfl rfl rfl


end Rell

namespace Rell


theorem docker_effects (w : World) :
    (docker w).2.fs = w.fs ∧ (docker w).2.docker = w.docker ∧
    (docker w).2.faults = w.faults ∧
    (∀ k s, Event.stop k s ∈ (docker w).2.trace →
      Event.stop k s ∈ w.trace) ∧
    (∀ k, Event.remove k ∈ (docker w).2.trace →
      Event.remove k ∈ w.trace) := by
  unfold docker logEv
  rcases w.clientMemo with _ | (_ | e)
  · rcases hc : w.faults.connectOk with _ | _ <;>
      simp only [hc, Bool.false_eq_true, if_false, if_true] <;>
      refine ⟨by simp, by simp, by simp, ?_, ?_⟩
    · intro k s h
      rcases List.mem_append.mp h with h2 | h2 <;> simp_all
    · intro k h
      rcases List.mem_append.mp h with h2 | h2 <;> simp_all
    · intro k s h
      rcases List.mem_append.mp h with h2 | h2 <;> simp_all
    · intro k h
      rcases List.mem_append.mp h with h2 | h2 <;> simp_all
  · simp
  · simp

theorem startRedisCreate_effects (w : World) :
    (startRedisCreate w).2.fs = w.fs ∧
    (∀ k s, Event.stop k s ∈ (startRedisCreate w).2.trace →
      Event.stop k s ∈ w.trace) ∧
    (∀ k, Event.remove k ∈ (startRedisCreate w).2.trace →
      Event.remove k ∈ w.trace) := by
  unfold startRedisCreate createContainer startContainer logEv
  rcases h1 : w.faults.createErr redisContainerName with _ | e1 <;>
    simp only [h1]
  case some =>
    refine ⟨by simp, ?_, ?_⟩
    · intro k s h
      rcases List.mem_append.mp h with h2 | h2 <;> simp_all
    · intro k h
      rcases List.mem_append.mp h with h2 | h2 <;> simp_all
  case none =>
    rcases h2 : w.faults.startErr ("cid:" ++ redisContainerName) with _ | e2 <;>
      simp only [h2] <;> refine ⟨by simp, ?_, ?_⟩
    all_goals intro k
    case none.refine_1 | some.refine_1 =>
      intro s h
      simp only [List.append_assoc, List.mem_append,
        List.mem_singleton, List.mem_cons, List.not_mem_nil, or_false] at h
      rcases h with h | h | h <;> simp_all
    case none.refine_2 | some.refine_2 =>
      intro h
      simp only [List.append_assoc, List.mem_append,
        List.mem_singleton, List.mem_cons, List.not_mem_nil, or_false] at h
      rcases h with h | h | h <;> simp_all

theorem startRedis_effects (w : World) :
    (startRedis w).2.fs = w.fs ∧
    (∀ k s, Event.stop k s ∈ (startRedis w).2.trace →
      Event.stop k s ∈ w.trace) ∧
    (∀ k, Event.remove k ∈ (startRedis w).2.trace →
      Event.remove k ∈ w.trace ∨ k = redisContainerName) := by
  obtain ⟨hfs, hdo, hfa, hst, hrm⟩ := docker_effects w
  rcases hdw : docker w with ⟨rd, wd⟩
  rw [hdw] at hfs hdo hfa hst hrm
  simp only at hfs hdo hfa hst hrm
  unfold startRedis
  rw [hdw]
  cases rd with
  | panic => exact ⟨hfs, hst, fun k h => Or.inl (hrm k h)⟩
  | err e => exact ⟨hfs, hst, fun k h => Or.inl (hrm k h)⟩
  | ok u =>
    unfold inspectContainer logEv
    have hstI : ∀ k s, Event.stop k s ∈ wd.trace ++ [Event.inspect
        redisContainerName] → Event.stop k s ∈ w.trace := by
      intro k s h
      rcases List.mem_append.mp h with h2 | h2
      · exact hst k s h2
      · simp at h2
    have hrmI : ∀ k, Event.remove k ∈ wd.trace ++ [Event.inspect
        redisContainerName] → Event.remove k ∈ w.trace := by
      intro k h
      rcases List.mem_append.mp h with h2 | h2
      · exact hrm k h2
      · simp at h2
    rcases hin : wd.faults.inspectErr redisContainerName with _ | e
    case some =>
      simp only [hin]
      by_cases hnf : e.isNotFound = true
      · simp only [hnf, if_true]
        obtain ⟨hfs2, hst2, hrm2⟩ := startRedisCreate_effects
          { wd with trace := wd.trace ++ [Event.inspect redisContainerName] }
        refine ⟨hfs2.trans hfs, fun k s h => hstI k s (hst2 k s h),
          fun k h => Or.inl (hrmI k (hrm2 k h))⟩
      · have hnf' : e.isNotFound = false := by simpa using hnf
        simp only [hnf', Bool.false_eq_true, if_false]
        exact ⟨hfs, hstI, fun k h => Or.inl (hrmI k h)⟩
    case none =>
      simp only [hin]
      rcases hfind : findContainer wd.docker redisContainerName with _ | c
      case none =>
        simp only [hfind, Err.isNotFound, if_true]
        obtain ⟨hfs2, hst2, hrm2⟩ := startRedisCreate_effects
          { wd with trace := wd.trace ++ [Event.inspect redisContainerName] }
        refine ⟨hfs2.trans hfs, fun k s h => hstI k s (hst2 k s h),
          fun k h => Or.inl (hrmI k (hrm2 k h))⟩
      case some =>
        simp only [hfind]
        rcases hrun : c.running with _ | _
        case true =>
          simp only [hrun, if_true]
          exact ⟨hfs, hstI, fun k h => Or.inl (hrmI k h)⟩
        case false =>
          simp only [hrun, Bool.false_eq_true, if_false]
          unfold removeContainer logEv
          rcases hre : wd.faults.removeErr redisContainerName with _ | e2
          case some =>
            simp only [hre]
            refine ⟨hfs, ?_, ?_⟩
            · intro k s h
              simp only [List.append_assoc, List.mem_append,
                List.mem_singleton, List.mem_cons, List.not_mem_nil,
                or_false] at h
              rcases h with h | h | h
              · exact hst k s h
              · simp_all
              · simp_all
            · intro k h
              simp only [List.append_assoc, List.mem_append,
                List.mem_singleton, List.mem_cons, List.not_mem_nil,
                or_false] at h
              rcases h with h | h | h
              · exact Or.inl (hrm k h)
              · simp_all
              · simp only [Event.remove.injEq] at h
                exact Or.inr h
          case none =>
            simp only [hre]
            obtain ⟨hfs2, hst2, hrm2⟩ := startRedisCreate_effects
              { wd with
                docker := (wd.docker).filter
                  (fun c => !(matchKey c redisContainerName)),
                trace := wd.trace ++ [Event.inspect redisContainerName] ++
                  [Event.remove redisContainerName] }
            refine ⟨hfs2.trans hfs, ?_, ?_⟩
            · intro k s h
              have h3 := hst2 k s h
              simp only [List.append_assoc, List.mem_append,
                List.mem_singleton, List.mem_cons, List.not_mem_nil,
                or_false] at h3
              rcases h3 with h3 | h3 | h3
              · exact hst k s h3
              · simp_all
              · simp_all
            · intro k h
              have h3 := hrm2 k h
              simp only [List.append_assoc, List.mem_append,
                List.mem_singleton, List.mem_cons, List.not_mem_nil,
                or_false] at h3
              rcases h3 with h3 | h3 | h3
              · exact Or.inl (hrm k h3)
              · simp_all
              · simp only [Event.remove.injEq] at h3
                exact Or.inr h3


end Rell

namespace Rell


theorem rellEnv_effects (w : World) :
    (rellEnv w).2.fs = w.fs ∧
    (∀ k s, Event.stop k s ∈ (rellEnv w).2.trace →
      Event.stop k s ∈ w.trace) ∧
    (∀ k, Event.remove k ∈ (rellEnv w).2.trace →
      Event.remove k ∈ w.trace) := by
  unfold rellEnv readFile logEv
  rcases h1 : w.faults.fsReadErr rellEnvFile with _ | e1 <;> simp only [h1]
  case none =>
    rcases h2 : fsGet w.fs rellEnvFile with _ | d <;> simp only [h2] <;>
      refine ⟨by simp, ?_, ?_⟩
    all_goals intro k
    case none.refine_1 | some.refine_1 =>
      intro s h
      rcases List.mem_append.mp h with h3 | h3 <;> simp_all
    case none.refine_2 | some.refine_2 =>
      intro h
      rcases List.mem_append.mp h with h3 | h3 <;> simp_all
  case some =>
    refine ⟨by simp, ?_, ?_⟩
    · intro k s h
      rcases List.mem_append.mp h with h3 | h3 <;> simp_all
    · intro k h
      rcases List.mem_append.mp h with h3 | h3 <;> simp_all

theorem startRellCreate_effects (tag : String) (w : World) :
    (startRellCreate tag w).2.fs = w.fs ∧
    (∀ k s, Event.stop k s ∈ (startRellCreate tag w).2.trace →
      Event.stop k s ∈ w.trace) ∧
    (∀ k, Event.remove k ∈ (startRellCreate tag w).2.trace →
      Event.remove k ∈ w.trace) := by
  obtain ⟨hfs, hst, hrm⟩ := rellEnv_effects w
  rcases hre : rellEnv w with ⟨r, we⟩
  rw [hre] at hfs hst hrm
  simp only at hfs hst hrm
  unfold startRellCreate
  rw [hre]
  cases r with
  | panic => exact ⟨hfs, hst, hrm⟩
  | err e => exact ⟨hfs, hst, hrm⟩
  | ok env =>
    unfold createContainer startContainer logEv
    rcases h1 : we.faults.createErr (containerNameForTag tag) with _ | e1 <;>
      simp only [h1]
    case some =>
      refine ⟨hfs, ?_, ?_⟩
      · intro k s h
        rcases List.mem_append.mp h with h3 | h3
        · exact hst k s h3
        · simp at h3
      · intro k h
        rcases List.mem_append.mp h with h3 | h3
        · exact hrm k h3
        · simp at h3
    case none =>
      rcases h2 : we.faults.startErr ("cid:" ++ containerNameForTag tag)
        with _ | e2 <;> simp only [h2] <;> refine ⟨hfs, ?_, ?_⟩
      all_goals intro k
      case none.refine_1 | some.refine_1 =>
        intro s h
        simp only [List.append_assoc, List.mem_append, List.mem_singleton,
          List.mem_cons, List.not_mem_nil, or_false] at h
        rcases h with h | h | h
        · exact hst k s h
        · simp_all
        · simp_all
      case none.refine_2 | some.refine_2 =>
        intro h
        simp only [List.append_assoc, List.mem_append, List.mem_singleton,
          List.mem_cons, List.not_mem_nil, or_false] at h
        rcases h with h | h | h
        · exact hrm k h
        · simp_all
        · simp_all

theorem startRell_effects (tag : String) (w : World) :
    (startRell tag w).2.fs = w.fs ∧
    (∀ k s, Event.stop k s ∈ (startRell tag w).2.trace →
      Event.stop k s ∈ w.trace) ∧
    (∀ k, Event.remove k ∈ (startRell tag w).2.trace →
      Event.remove k ∈ w.trace ∨ k = containerNameForTag tag) := by
  obtain ⟨hfs, hdo, hfa, hst, hrm⟩ := docker_effects w
  rcases hdw : docker w with ⟨rd, wd⟩
  rw [hdw] at hfs hdo hfa hst hrm
  simp only at hfs hdo hfa hst hrm
  unfold startRell
  rw [hdw]
  cases rd with
  | panic => exact ⟨hfs, hst, fun k h => Or.inl (hrm k h)⟩
  | err e => exact ⟨hfs, hst, fun k h => Or.inl (hrm k h)⟩
  | ok u =>
    unfold inspectContainer logEv
    have hstI : ∀ k s, Event.stop k s ∈ wd.trace ++ [Event.inspect
        (containerNameForTag tag)] → Event.stop k s ∈ w.trace := by
      intro k s h
      rcases List.mem_append.mp h with h2 | h2
      · exact hst k s h2
      · simp at h2
    have hrmI : ∀ k, Event.remove k ∈ wd.trace ++ [Event.inspect
        (containerNameForTag tag)] → Event.remove k ∈ w.trace := by
      intro k h
      rcases List.mem_append.mp h with h2 | h2
      · exact hrm k h2
      · simp at h2
    rcases hin : wd.faults.inspectErr (containerNameForTag tag) with _ | e
    case some =>
      simp only [hin]
      by_cases hnf : e.isNotFound = true
      · simp only [hnf, if_true]
        obtain ⟨hfs2, hst2, hrm2⟩ := startRellCreate_effects tag
          { wd with trace := wd.trace ++
            [Event.inspect (containerNameForTag tag)] }
        refine ⟨hfs2.trans hfs, fun k s h => hstI k s (hst2 k s h),
          fun k h => Or.inl (hrmI k (hrm2 k h))⟩
      · have hnf' : e.isNotFound = false := by simpa using hnf
        simp only [hnf', Bool.false_eq_true, if_false]
        exact ⟨hfs, hstI, fun k h => Or.inl (hrmI k h)⟩
    case none =>
      simp only [hin]
      rcases hfind : findContainer wd.docker (containerNameForTag tag)
        with _ | c
      case none =>
        simp only [hfind, Err.isNotFound, if_true]
        obtain ⟨hfs2, hst2, hrm2⟩ := startRellCreate_effects tag
          { wd with trace := wd.trace ++
            [Event.inspect (containerNameForTag tag)] }
        refine ⟨hfs2.trans hfs, fun k s h => hstI k s (hst2 k s h),
          fun k h => Or.inl (hrmI k (hrm2 k h))⟩
      case some =>
        simp only [hfind]
        rcases hrun : c.running with _ | _
        case true =>
          simp only [hrun, if_true]
          exact ⟨hfs, hstI, fun k h => Or.inl (hrmI k h)⟩
        case false =>
          simp only [hrun, Bool.false_eq_true, if_false]
          unfold removeContainer logEv
          rcases hrem : wd.faults.removeErr (containerNameForTag tag)
            with _ | e2
          case some =>
            simp only [hrem]
            refine ⟨hfs, ?_, ?_⟩
            · intro k s h
              simp only [List.append_assoc, List.mem_append,
                List.mem_singleton, List.mem_cons, List.not_mem_nil,
                or_false] at h
              rcases h with h | h | h
              · exact hst k s h
              · simp_all
              · simp_all
            · intro k h
              simp only [List.append_assoc, List.mem_append,
                List.mem_singleton, List.mem_cons, List.not_mem_nil,
                or_false] at h
              rcases h with h | h | h
              · exact Or.inl (hrm k h)
              · simp_all
              · simp only [Event.remove.injEq] at h
                exact Or.inr h
          case none =>
            simp only [hrem]
            obtain ⟨hfs2, hst2, hrm2⟩ := startRellCreate_effects tag
              { wd with
                docker := (wd.docker).filter
                  (fun c => !(matchKey c (containerNameForTag tag))),
                trace := wd.trace ++
                  [Event.inspect (containerNameForTag tag)] ++
                  [Event.remove (containerNameForTag tag)] }
            refine ⟨hfs2.trans hfs, ?_, ?_⟩
            · intro k s h
              have h3 := hst2 k s h
              simp only [List.append_assoc, List.mem_append,
                List.mem_singleton, List.mem_cons, List.not_mem_nil,
                or_false] at h3
              rcases h3 with h3 | h3 | h3
              · exact hst k s h3
              · simp_all
              · simp_all
            · intro k h
              have h3 := hrm2 k h
              simp only [List.append_assoc, List.mem_append,
                List.mem_singleton, List.mem_cons, List.not_mem_nil,
                or_false] at h3
              rcases h3 with h3 | h3 | h3
              · exact Or.inl (hrm k h3)
              · simp_all
              · simp only [Event.remove.injEq] at h3
                exact Or.inr h3


end Rell

namespace Rell


theorem genTagNginxConf_effects (d : Deploy) (tag : String) (w : World) :
    (∀ q, q ≠ containerNginxConfPath (containerNameForTag tag) →
      fsGet (genTagNginxConf d tag w).2.fs q = fsGet w.fs q) ∧
    (∀ k s, Event.stop k s ∈ (genTagNginxConf d tag w).2.trace →
      Event.stop k s ∈ w.trace) ∧
    (∀ k, Event.remove k ∈ (genTagNginxConf d tag w).2.trace →
      Event.remove k ∈ w.trace) := by
  obtain ⟨hfs, hdo, hfa, hst, hrm⟩ := docker_effects w
  rcases hdw : docker w with ⟨rd, wd⟩
  rw [hdw] at hfs hdo hfa hst hrm
  simp only at hfs hdo hfa hst hrm
  unfold genTagNginxConf
  rw [hdw]
  cases rd with
  | panic => exact ⟨fun q _ => by rw [hfs], hst, hrm⟩
  | err e => exact ⟨fun q _ => by rw [hfs], hst, hrm⟩
  | ok u =>
    unfold inspectContainer osCreate renderFile osClose osCloseIgnore
      osRemoveFile logEv
    have hstI : ∀ t, (∀ x ∈ t, ∀ k s, x ≠ Event.stop k s) →
        ∀ k s, Event.stop k s ∈ wd.trace ++ t → Event.stop k s ∈ w.trace := by
      intro t ht k s h
      rcases List.mem_append.mp h with h2 | h2
      · exact hst k s h2
      · exact absurd rfl (ht _ h2 k s)
    have hrmI : ∀ t, (∀ x ∈ t, ∀ k, x ≠ Event.remove k) →
        ∀ k, Event.remove k ∈ wd.trace ++ t → Event.remove k ∈ w.trace := by
      intro t ht k h
      rcases List.mem_append.mp h with h2 | h2
      · exact hrm k h2
      · exact absurd rfl (ht _ h2 k)
    rcases hin : wd.faults.inspectErr (containerNameForTag tag) with _ | e
    case some =>
      simp only [hin]
      refine ⟨fun q _ => by rw [hfs], fun k s h => ?_, fun k h => ?_⟩
      · simp only [List.append_assoc] at h
        exact hstI _ (by simp) k s h
      · simp only [List.append_assoc] at h
        exact hrmI _ (by simp) k h
    case none =>
      simp only [hin]
      rcases hfind : findContainer wd.docker (containerNameForTag tag)
        with _ | c <;> simp only [hfind]
      case none =>
        refine ⟨fun q _ => by rw [hfs], fun k s h => ?_, fun k h => ?_⟩
        · simp only [List.append_assoc] at h
          exact hstI _ (by simp) k s h
        · simp only [List.append_assoc] at h
          exact hrmI _ (by simp) k h
      case some =>
        rcases h1 : wd.faults.fsCreateErr
          (containerNginxConfPath (containerNameForTag tag)) with _ | e1 <;>
          simp only [h1]
        case some =>
          refine ⟨fun q _ => by rw [hfs], fun k s h => ?_, fun k h => ?_⟩
          · simp only [List.append_assoc] at h
            exact hstI _ (by simp) k s h
          · simp only [List.append_assoc] at h
            exact hrmI _ (by simp) k h
        case none =>
        rcases h2 : wd.faults.renderErr
          (containerNginxConfPath (containerNameForTag tag)) with _ | e2 <;>
          simp only [h2]
        case some =>
          refine ⟨?_, fun k s h => ?_, fun k h => ?_⟩
          · intro q hq
            rw [fsGet_fsDel_other _ _ _ (Ne.symm hq),
              fsGet_fsSet_other _ _ _ _ (Ne.symm hq),
              fsGet_fsSet_other _ _ _ _ (Ne.symm hq), hfs]
          · simp only [List.append_assoc] at h
            exact hstI _ (by simp) k s h
          · simp only [List.append_assoc] at h
            exact hrmI _ (by simp) k h
        case none =>
        rcases h3 : wd.faults.fsCloseErr
          (containerNginxConfPath (containerNameForTag tag)) with _ | e3 <;>
          simp only [h3] <;>
          refine ⟨?_, fun k s h => ?_, fun k h => ?_⟩
        all_goals try (intro q hq; rw [fsGet_fsSet_other _ _ _ _ (Ne.symm hq), fsGet_fsSet_other _ _ _ _ (Ne.symm hq), hfs])
        all_goals simp only [List.append_assoc] at h
        case some.refine_2 | none.refine_2 => exact hstI _ (by simp) k s h
        case some.refine_3 | none.refine_3 => exact hrmI _ (by simp) k h

theorem infoCheck_effects (tag : String) (w : World) :
    (infoCheck tag w).2.fs = w.fs ∧
    (∀ k s, Event.stop k s ∈ (infoCheck tag w).2.trace →
      Event.stop k s ∈ w.trace) ∧
    (∀ k, Event.remove k ∈ (infoCheck tag w).2.trace →
      Event.remove k ∈ w.trace) := by
  obtain ⟨hfs, hdo, hfa, hst, hrm⟩ := docker_effects w
  rcases hdw : docker w with ⟨rd, wd⟩
  rw [hdw] at hfs hdo hfa hst hrm
  simp only at hfs hdo hfa hst hrm
  unfold infoCheck
  rw [hdw]
  cases rd with
  | panic => exact ⟨hfs, hst, hrm⟩
  | err e => exact ⟨hfs, hst, hrm⟩
  | ok u =>
    unfold inspectContainer logEv
    have hstI : ∀ k s, Event.stop k s ∈ wd.trace ++ [Event.inspect
        (containerNameForTag tag)] → Event.stop k s ∈ w.trace := by
      intro k s h
      rcases List.mem_append.mp h with h2 | h2
      · exact hst k s h2
      · simp at h2
    have hrmI : ∀ k, Event.remove k ∈ wd.trace ++ [Event.inspect
        (containerNameForTag tag)] → Event.remove k ∈ w.trace := by
      intro k h
      rcases List.mem_append.mp h with h2 | h2
      · exact hrm k h2
      · simp at h2
    rcases hin : wd.faults.inspectErr (containerNameForTag tag) with _ | e <;>
      simp only [hin]
    case some => exact ⟨hfs, hstI, hrmI⟩
    case none =>
      rcases hfind : findContainer wd.docker (containerNameForTag tag)
        with _ | c <;> simp only [hfind]
      case none => exact ⟨hfs, hstI, hrmI⟩
      case some => exact ⟨hfs, hstI, hrmI⟩

theorem hupNginx_effects (w : World) :
    (hupNginx w).2.fs = w.fs ∧
    (∀ k s, Event.stop k s ∈ (hupNginx w).2.trace →
      Event.stop k s ∈ w.trace) ∧
    (∀ k, Event.remove k ∈ (hupNginx w).2.trace →
      Event.remove k ∈ w.trace) ∧
    ((hupNginx w).1 = .ok () → Event.signalHup ∈ (hupNginx w).2.trace) := by
  unfold hupNginx readFile logEv
  rcases h1 : w.faults.fsReadErr nginxPidFile with _ | e1 <;> simp only [h1]
  case some =>
    refine ⟨by simp, ?_, ?_, by simp⟩
    · intro k s h
      rcases List.mem_append.mp h with h2 | h2 <;> simp_all
    · intro k h
      rcases List.mem_append.mp h with h2 | h2 <;> simp_all
  case none =>
    rcases h2 : fsGet w.fs nginxPidFile with _ | dd <;> simp only [h2]
    case none =>
      refine ⟨by simp, ?_, ?_, by simp⟩
      · intro k s h
        rcases List.mem_append.mp h with h3 | h3 <;> simp_all
      · intro k h
        rcases List.mem_append.mp h with h3 | h3 <;> simp_all
    case some =>
      rcases h3 : goAtoi (goTrim (textOf dd)) with _ | n <;> simp only [h3]
      case none =>
        refine ⟨by simp, ?_, ?_, by simp⟩
        · intro k s h
          rcases List.mem_append.mp h with h4 | h4 <;> simp_all
        · intro k h
          rcases List.mem_append.mp h with h4 | h4 <;> simp_all
      case some =>
        rcases h4 : w.faults.signalErr with _ | e4 <;> simp only [h4] <;>
          refine ⟨by simp, ?_, ?_, by simp⟩
        all_goals intro k
        case none.refine_1 | some.refine_1 =>
          intro s h
          simp only [List.append_assoc, List.mem_append, List.mem_singleton,
            List.mem_cons, List.not_mem_nil, or_false] at h
          rcases h with h | h | h <;> simp_all
        case none.refine_2 | some.refine_2 =>
          intro h
          simp only [List.append_assoc, List.mem_append, List.mem_singleton,
            List.mem_cons, List.not_mem_nil, or_false] at h
          rcases h with h | h | h <;> simp_all


end Rell

namespace Rell


theorem killLoop_trace_extension (tag : String) (cs : List Container) :
    ∀ errs w, ∃ t, (killLoop tag cs errs w).2.trace = w.trace ++ t := by
  induction cs with
  | nil =>
    intro errs w
    exact ⟨[], by simp [killLoop]⟩
  | cons c rest ih =>
    intro errs w
    rw [killLoop]
    by_cases himg : isRellC c = true
    case neg =>
      have himg' : isRellC c = false := by simpa using himg
      simp only [himg', Bool.not_false, if_true]
      exact ih errs w
    case pos =>
      simp only [himg, Bool.not_true, Bool.false_eq_true, if_false]
      rcases htn : tagFromNames c.names with _ | t0 <;> simp only [htn]
      case none => exact ⟨[], by simp⟩
      case some =>
        by_cases htag : t0 = tag
        case pos =>
          simp only [if_pos htag]
          exact ih errs w
        case neg =>
          simp only [if_neg htag]
          unfold osRemoveFile stopContainer removeContainer logEv
          rcases hstop : w.faults.stopErr c.id with _ | es <;>
            simp only [hstop] <;>
            rcases hrem : w.faults.removeErr c.id with _ | e <;>
            simp only [hrem]
          case none.none =>
            obtain ⟨t, ht⟩ := ih errs _
            exact ⟨[Event.fsRemove (containerNginxConfPath
              (containerNameForTag t0)), Event.stop c.id stopTimeoutSecs,
              Event.remove c.id] ++ t, by rw [ht]; simp⟩
          case none.some =>
            obtain ⟨t, ht⟩ := ih (errs ++ [e]) _
            exact ⟨[Event.fsRemove (containerNginxConfPath
              (containerNameForTag t0)), Event.stop c.id stopTimeoutSecs,
              Event.remove c.id] ++ t, by rw [ht]; simp⟩
          case some.none =>
            obtain ⟨t, ht⟩ := ih errs _
            exact ⟨[Event.fsRemove (containerNginxConfPath
              (containerNameForTag t0)), Event.stop c.id stopTimeoutSecs,
              Event.remove c.id] ++ t, by rw [ht]; simp⟩
          case some.some =>
            obtain ⟨t, ht⟩ := ih (errs ++ [e]) _
            exact ⟨[Event.fsRemove (containerNginxConfPath
              (containerNameForTag t0)), Event.stop c.id stopTimeoutSecs,
              Event.remove c.id] ++ t, by rw [ht]; simp⟩

theorem killExcept_trace_extension (tag : String) (w : World) :
    ∃ t, (killExcept tag w).2.trace = w.trace ++ t := by
  unfold killExcept docker listContainers logEv
  rcases hm : w.clientMemo with _ | (_ | e0)
  case some.none =>
    simp only
    rcases hl : w.faults.listErr with _ | el <;> simp only [hl]
    case some => exact ⟨[.list], by simp⟩
    case none =>
      obtain ⟨t, ht⟩ := killLoop_trace_extension tag w.docker []
        { w with trace := w.trace ++ [Event.list] }
      rcases hk : killLoop tag w.docker []
        { w with trace := w.trace ++ [Event.list] } with ⟨r, w2⟩
      rw [hk] at ht
      simp only at ht
      refine ⟨[Event.list] ++ t, ?_⟩
      cases r <;> simp only [] <;> rw [ht] <;> simp
  case some.some => exact ⟨[], by simp⟩
  case none =>
    rcases hco : w.faults.connectOk with _ | _
    case false =>
      simp only [hco, Bool.false_eq_true, if_false]
      exact ⟨[.connect], by simp⟩
    case true =>
      simp only [hco, if_true]
      rcases hl : w.faults.listErr with _ | el <;> simp only [hl]
      case some => exact ⟨[.connect, .list], by simp⟩
      case none =>
        obtain ⟨t, ht⟩ := killLoop_trace_extension tag w.docker []
          { w with clientMemo := some none,
                   trace := w.trace ++ [.connect] ++ [.list] }
        rcases hk : killLoop tag w.docker []
          { w with clientMemo := some none,
                   trace := w.trace ++ [.connect] ++ [.list] } with ⟨r, w2⟩
        rw [hk] at ht
        simp only at ht
        refine ⟨[Event.connect, Event.list] ++ t, ?_⟩
        cases r <;> simp only [] <;> rw [ht] <;> simp


end Rell

namespace Rell


theorem confPath_ne_lastTag (n : String) :
    containerNginxConfPath n ≠ lastDeployTagFile := by
  intro h
  have hd := congrArg String.data h
  unfold containerNginxConfPath nginxConfDir lastDeployTagFile at hd
  simp only [String.data_append, List.append_assoc] at hd
  have h1 := congrArg (fun l => l[1]?) hd
  simp only at h1
  rw [List.getElem?_append] at h1
  simp at h1

theorem tagConf_ne_prodConf (tag : String) (h : tag ≠ "prod") :
    containerNginxConfPath (containerNameForTag tag) ≠ prodConfPath := by
  intro he
  have hp : prodConfPath = containerNginxConfPath (containerNameForTag "prod") :=
    by decide
  rw [hp] at he
  exact h (containerNameForTag_inj _ _ (containerNginxConfPath_inj _ _ he))


end Rell

namespace Rell

theorem DeployTag_aborts (d : Deploy) (tag : String) (prod : Bool)
    (w : World) :
    (∀ e w1, startRedis w = (.err e, w1) →
      DeployTag d tag prod w = (.err e, w1)) ∧
    (∀ w1 e w2, startRedis w = (.ok (), w1) →
      startRell tag w1 = (.err e, w2) →
      DeployTag d tag prod w = (.err e, w2)) ∧
    (∀ w1 w2 e w3, startRedis w = (.ok (), w1) →
      startRell tag w1 = (.ok (), w2) →
      genTagNginxConf d tag w2 = (.err e, w3) →
      DeployTag d tag prod w = (.err e, w3)) ∧
    (∀ w1 w2 w3 e w4, startRedis w = (.ok (), w1) →
      startRell tag w1 = (.ok (), w2) →
      genTagNginxConf d tag w2 = (.ok (), w3) →
      infoCheck tag w3 = (.err e, w4) →
      DeployTag d tag prod w = (.err e, w4)) ∧
    (∀ w1 w2 w3 w4 e w5, prod = true → startRedis w = (.ok (), w1) →
      startRell tag w1 = (.ok (), w2) →
      genTagNginxConf d tag w2 = (.ok (), w3) →
      infoCheck tag w3 = (.ok (), w4) →
      switchProd d tag w4 = (.err e, w5) →
      DeployTag d tag prod w = (.err e, w5)) ∧
    (∀ w1 w2 w3 w4 w5 e w6, startRedis w = (.ok (), w1) →
      startRell tag w1 = (.ok (), w2) →
      genTagNginxConf d tag w2 = (.ok (), w3) →
      infoCheck tag w3 = (.ok (), w4) →
      (if prod then switchProd d tag w4 else (.ok (), w4)) = (.ok (), w5) →
      hupNginx w5 = (.err e, w6) →
      DeployTag d tag prod w = (.err e, w6)) ∧
    (∀ w1 w2 w3 w4 w5 w6 e w7, prod = true → startRedis w = (.ok (), w1) →
      startRell tag w1 = (.ok (), w2) →
      genTagNginxConf d tag w2 = (.ok (), w3) →
      infoCheck tag w3 = (.ok (), w4) →
      switchProd d tag w4 = (.ok (), w5) →
      hupNginx w5 = (.ok (), w6) →
      killExcept tag w6 = (.err e, w7) →
      DeployTag d tag prod w = (.err e, w7)) := by
  refine ⟨?_, ?_, ?_, ?_, ?_, ?_, ?_⟩
  · intro e w1 h1
    unfold DeployTag
    simp only [h1]
  · intro w1 e w2 h1 h2
    unfold DeployTag
    simp only [h1, h2]
  · intro w1 w2 e w3 h1 h2 h3
    unfold DeployTag
    simp only [h1, h2, h3]
  · intro w1 w2 w3 e w4 h1 h2 h3 h4
    unfold DeployTag
    simp only [h1, h2, h3, h4]
  · intro w1 w2 w3 w4 e w5 hp h1 h2 h3 h4 h5
    subst hp
    unfold DeployTag
    simp only [h1, h2, h3, h4, if_true, h5]
  · intro w1 w2 w3 w4 w5 e w6 h1 h2 h3 h4 h5 h6
    unfold DeployTag
    simp only [h1, h2, h3, h4, h5, h6]
  · intro w1 w2 w3 w4 w5 w6 e w7 hp h1 h2 h3 h4 h5 h6 h7
    subst hp
    unfold DeployTag
    simp only [h1, h2, h3, h4, if_true, h5, h6, h7]

end Rell

namespace Rell

theorem DeployTag_reloads (d : Deploy) (tag : String) (prod : Bool)
    (w : World) (hok : (DeployTag d tag prod w).1 = .ok ()) :
    Event.signalHup ∈ (DeployTag d tag prod w).2.trace := by
  unfold DeployTag at hok ⊢
  rcases h1 : startRedis w with ⟨r1, w1⟩
  rw [h1] at hok
  cases r1 with
  | err e => simp at hok
  | panic => simp at hok
  | ok u =>
    simp only [] at hok ⊢
    rcases h2 : startRell tag w1 with ⟨r2, w2⟩
    rw [h2] at hok
    cases r2 with
    | err e => simp at hok
    | panic => simp at hok
    | ok u =>
      simp only [] at hok ⊢
      rcases h3 : genTagNginxConf d tag w2 with ⟨r3, w3⟩
      rw [h3] at hok
      cases r3 with
      | err e => simp at hok
      | panic => simp at hok
      | ok u =>
        simp only [] at hok ⊢
        rcases h4 : infoCheck tag w3 with ⟨r4, w4⟩
        rw [h4] at hok
        cases r4 with
        | err e => simp at hok
        | panic => simp at hok
        | ok u =>
          simp only [] at hok ⊢
          rcases h5 : (if prod then switchProd d tag w4 else (.ok (), w4))
            with ⟨r5, w5⟩
          rw [h5] at hok
          cases r5 with
          | err e => simp at hok
          | panic => simp at hok
          | ok u =>
            simp only [] at hok ⊢
            rcases h6 : hupNginx w5 with ⟨r6, w6⟩
            rw [h6] at hok
            cases r6 with
            | err e => simp at hok
            | panic => simp at hok
            | ok u =>
              have hsig : Event.signalHup ∈ w6.trace := by
                have := (hupNginx_effects w5).2.2.2
                rw [h6] at this
                exact this rfl
              simp only [] at hok ⊢
              rcases h7 : (if prod then killExcept tag w6 else (.ok (), w6))
                with ⟨r7, w7⟩
              rw [h7] at hok
              have hext : ∃ t, w7.trace = w6.trace ++ t := by
                cases prod with
                | false =>
                  simp only [if_false, Bool.false_eq_true] at h7
                  simp only [Prod.mk.injEq] at h7
                  rw [← h7.2]
                  exact ⟨[], by simp⟩
                | true =>
                  simp only [if_true] at h7
                  obtain ⟨t, ht⟩ := killExcept_trace_extension tag w6
                  rw [h7] at ht
                  exact ⟨t, ht⟩
              obtain ⟨t, ht⟩ := hext
              have hmem : Event.signalHup ∈ w7.trace := by
                rw [ht]
                exact List.mem_append_left _ hsig
              cases r7 <;> simpa using hmem

end Rell

namespace Rell

theorem DeployTag_nonprod_pure (d : Deploy) (tag : String) (w : World) :
    fsGet (DeployTag d tag false w).2.fs lastDeployTagFile =
      fsGet w.fs lastDeployTagFile ∧
    (tag ≠ "prod" →
      fsGet (DeployTag d tag false w).2.fs prodConfPath =
        fsGet w.fs prodConfPath) ∧
    (∀ k s, Event.stop k s ∈ (DeployTag d tag false w).2.trace →
      Event.stop k s ∈ w.trace) ∧
    (∀ k, Event.remove k ∈ (DeployTag d tag false w).2.trace →
      Event.remove k ∈ w.trace ∨ k = redisContainerName ∨
      k = containerNameForTag tag) := by
  unfold DeployTag
  obtain ⟨e1fs, e1st, e1rm⟩ := startRedis_effects w
  rcases h1 : startRedis w with ⟨r1, w1⟩
  rw [h1] at e1fs e1st e1rm
  simp only at e1fs e1st e1rm
  have rm1 : ∀ k, Event.remove k ∈ w1.trace → Event.remove k ∈ w.trace ∨
      k = redisContainerName ∨ k = containerNameForTag tag :=
    fun k h => (e1rm k h).elim Or.inl (fun he => Or.inr (Or.inl he))
  cases r1 with
  | err e => exact ⟨by rw [e1fs], fun _ => by rw [e1fs], e1st, rm1⟩
  | panic => exact ⟨by rw [e1fs], fun _ => by rw [e1fs], e1st, rm1⟩
  | ok u =>
    simp only []
    obtain ⟨e2fs, e2st, e2rm⟩ := startRell_effects tag w1
    rcases h2 : startRell tag w1 with ⟨r2, w2⟩
    rw [h2] at e2fs e2st e2rm
    simp only at e2fs e2st e2rm
    have fs2 : w2.fs = w.fs := e2fs.trans e1fs
    have st2 : ∀ k s, Event.stop k s ∈ w2.trace → Event.stop k s ∈ w.trace :=
      fun k s h => e1st k s (e2st k s h)
    have rm2 : ∀ k, Event.remove k ∈ w2.trace → Event.remove k ∈ w.trace ∨
        k = redisContainerName ∨ k = containerNameForTag tag :=
      fun k h => (e2rm k h).elim (fun h' => rm1 k h')
        (fun he => Or.inr (Or.inr he))
    cases r2 with
    | err e => exact ⟨by rw [fs2], fun _ => by rw [fs2], st2, rm2⟩
    | panic => exact ⟨by rw [fs2], fun _ => by rw [fs2], st2, rm2⟩
    | ok u =>
      simp only []
      obtain ⟨e3fs, e3st, e3rm⟩ := genTagNginxConf_effects d tag w2
      rcases h3 : genTagNginxConf d tag w2 with ⟨r3, w3⟩
      rw [h3] at e3fs e3st e3rm
      simp only at e3fs e3st e3rm
      have fsL3 : fsGet w3.fs lastDeployTagFile =
          fsGet w.fs lastDeployTagFile := by
        rw [e3fs _ (Ne.symm (confPath_ne_lastTag _)), fs2]
      have fsP3 : tag ≠ "prod" → fsGet w3.fs prodConfPath =
          fsGet w.fs prodConfPath := fun ht => by
        rw [e3fs _ (Ne.symm (tagConf_ne_prodConf tag ht)), fs2]
      have st3 : ∀ k s, Event.stop k s ∈ w3.trace →
          Event.stop k s ∈ w.trace :=
        fun k s h => st2 k s (e3st k s h)
      have rm3 : ∀ k, Event.remove k ∈ w3.trace → Event.remove k ∈ w.trace ∨
          k = redisContainerName ∨ k = containerNameForTag tag :=
        fun k h => rm2 k (e3rm k h)
      cases r3 with
      | err e => exact ⟨fsL3, fsP3, st3, rm3⟩
      | panic => exact ⟨fsL3, fsP3, st3, rm3⟩
      | ok u =>
        simp only []
        obtain ⟨e4fs, e4st, e4rm⟩ := infoCheck_effects tag w3
        rcases h4 : infoCheck tag w3 with ⟨r4, w4⟩
        rw [h4] at e4fs e4st e4rm
        simp only at e4fs e4st e4rm
        have fsL4 : fsGet w4.fs lastDeployTagFile =
            fsGet w.fs lastDeployTagFile := by rw [e4fs]; exact fsL3
        have fsP4 : tag ≠ "prod" → fsGet w4.fs prodConfPath =
            fsGet w.fs prodConfPath := fun ht => by rw [e4fs]; exact fsP3 ht
        have st4 : ∀ k s, Event.stop k s ∈ w4.trace →
            Event.stop k s ∈ w.trace :=
          fun k s h => st3 k s (e4st k s h)
        have rm4 : ∀ k, Event.remove k ∈ w4.trace →
            Event.remove k ∈ w.trace ∨ k = redisContainerName ∨
            k = containerNameForTag tag :=
          fun k h => rm3 k (e4rm k h)
        cases r4 with
        | err e => exact ⟨fsL4, fsP4, st4, rm4⟩
        | panic => exact ⟨fsL4, fsP4, st4, rm4⟩
        | ok u =>
          simp only [Bool.false_eq_true, if_false]
          obtain ⟨e5fs, e5st, e5rm, _⟩ := hupNginx_effects w4
          rcases h5 : hupNginx w4 with ⟨r5, w5⟩
          rw [h5] at e5fs e5st e5rm
          simp only at e5fs e5st e5rm
          have fsL5 : fsGet w5.fs lastDeployTagFile =
              fsGet w.fs lastDeployTagFile := by rw [e5fs]; exact fsL4
          have fsP5 : tag ≠ "prod" → fsGet w5.fs prodConfPath =
              fsGet w.fs prodConfPath := fun ht => by rw [e5fs]; exact fsP4 ht
          have st5 : ∀ k s, Event.stop k s ∈ w5.trace →
              Event.stop k s ∈ w.trace :=
            fun k s h => st4 k s (e5st k s h)
          have rm5 : ∀ k, Event.remove k ∈ w5.trace →
              Event.remove k ∈ w.trace ∨ k = redisContainerName ∨
              k = containerNameForTag tag :=
            fun k h => rm4 k (e5rm k h)
          cases r5 with
          | err e => exact ⟨fsL5, fsP5, st5, rm5⟩
          | panic => exact ⟨fsL5, fsP5, st5, rm5⟩
          | ok u =>
            simp only [Bool.false_eq_true, if_false]
            exact ⟨fsL5, fsP5, st5, rm5⟩

end Rell

namespace Rell

/-- C2 counterexample: deploying the literal tag `"prod"` without promotion
succeeds and overwrites the production config file with that tag's upstream
config — `rell-prod.conf` is simultaneously the upstream config path for tag
`"prod"` and the production config file — so "prod=false leaves the
production config untouched" fails as stated. -/
theorem DeployTag_prod_tag_clobbers_production_config :
    (DeployTag dRun "prod" false wRun).1 = .ok () ∧
    fsGet wRun.fs prodConfPath = none ∧
    fsGet (DeployTag dRun "prod" false wRun).2.fs prodConfPath =
      some (.tagConf "rell-prod" "prod.minetti.fbrell.com" "10.0.0.5" 43600
        "/cert.pem" "/key.pem") :=
  ⟨rfl, rfl, rfl⟩

/-- C2 (amended): `DeployTag` executes ensure-cache, ensure-release,
synthesize-upstream-config, await-readiness, promote (only if prod),
reload-proxy, cleanup (only if prod) in order; the first failing step's
error is returned unchanged with nothing further executed; on success the
proxy reload was performed whether or not prod was set; and when prod is
false the last-applied-tag file is untouched, the production config file is
untouched provided tag ≠ "prod" (the literal tag "prod" collides with the
production config path), no container is ever stopped, and only the cache
container and the deployed tag's own container can be removal targets. -/
theorem DeployTag_sequence (d : Deploy) (tag : String) (prod : Bool)
    (w : World) :
    ((∀ e w1, startRedis w = (.err e, w1) →
      DeployTag d tag prod w = (.err e, w1)) ∧
    (∀ w1 e w2, startRedis w = (.ok (), w1) →
      startRell tag w1 = (.err e, w2) →
      DeployTag d tag prod w = (.err e, w2)) ∧
    (∀ w1 w2 e w3, startRedis w = (.ok (), w1) →
      startRell tag w1 = (.ok (), w2) →
      genTagNginxConf d tag w2 = (.err e, w3) →
      DeployTag d tag prod w = (.err e, w3)) ∧
    (∀ w1 w2 w3 e w4, startRedis w = (.ok (), w1) →
      startRell tag w1 = (.ok (), w2) →
      genTagNginxConf d tag w2 = (.ok (), w3) →
      infoCheck tag w3 = (.err e, w4) →
      DeployTag d tag prod w = (.err e, w4)) ∧
    (∀ w1 w2 w3 w4 e w5, prod = true → startRedis w = (.ok (), w1) →
      startRell tag w1 = (.ok (), w2) →
      genTagNginxConf d tag w2 = (.ok (), w3) →
      infoCheck tag w3 = (.ok (), w4) →
      switchProd d tag w4 = (.err e, w5) →
      DeployTag d tag prod w = (.err e, w5)) ∧
    (∀ w1 w2 w3 w4 w5 e w6, startRedis w = (.ok (), w1) →
      startRell tag w1 = (.ok (), w2) →
      genTagNginxConf d tag w2 = (.ok (), w3) →
      infoCheck tag w3 = (.ok (), w4) →
      (if prod then switchProd d tag w4 else (.ok (), w4)) = (.ok (), w5) →
      hupNginx w5 = (.err e, w6) →
      DeployTag d tag prod w = (.err e, w6)) ∧
    (∀ w1 w2 w3 w4 w5 w6 e w7, prod = true → startRedis w = (.ok (), w1) →
      startRell tag w1 = (.ok (), w2) →
      genTagNginxConf d tag w2 = (.ok (), w3) →
      infoCheck tag w3 = (.ok (), w4) →
      switchProd d tag w4 = (.ok (), w5) →
      hupNginx w5 = (.ok (), w6) →
      killExcept tag w6 = (.err e, w7) →
      DeployTag d tag prod w = (.err e, w7))) ∧
    ((DeployTag d tag prod w).1 = .ok () →
      Event.signalHup ∈ (DeployTag d tag prod w).2.trace) ∧
    (fsGet (DeployTag d tag false w).2.fs lastDeployTagFile =
      fsGet w.fs lastDeployTagFile ∧
    (tag ≠ "prod" →
      fsGet (DeployTag d tag false w).2.fs prodConfPath =
        fsGet w.fs prodConfPath) ∧
    (∀ k s, Event.stop k s ∈ (DeployTag d tag false w).2.trace →
      Event.stop k s ∈ w.trace) ∧
    (∀ k, Event.remove k ∈ (DeployTag d tag false w).2.trace →
      Event.remove k ∈ w.trace ∨ k = redisContainerName ∨
      k = containerNameForTag tag)) :=
  ⟨DeployTag_aborts d tag prod w,
   fun hok => DeployTag_reloads d tag prod w hok,
   DeployTag_nonprod_pure d tag w⟩

/-- Witness for C2: a successful promoted deploy reloaded the proxy. -/
theorem DeployTag_sequence_witness :
    Event.signalHup ∈ (DeployTag dRun "v42" true wRun).2.trace :=
  (DeployTag_sequence dRun "v42" true wRun).2.1 rfl

end Rell
